import Mathlib

/-!
# xv6-riscv: page-frame allocator (`kernel/kalloc.c`) and group-lock registry
(`kernel/grouplock.c`)

Shallow embedding of the two kernel components and theorems about them.

Conventions of the embedding.

* Physical addresses, page-frame numbers and lock states are natural numbers.
  `uint` arithmetic is reduced modulo `2^32`, `uint64` arithmetic modulo `2^64`.
* An intrusive free list (`struct run *`, linked through `r->next`) is represented
  by the sequence of the node addresses met when following `next` from the head;
  the empty list is the null head.  The junk fills (`memset`) only touch
  page contents and are not part of the state.
* The spin lock `kmem.lock` / `grouplocks_table_lock` serialises the bodies; a
  kernel function is one state transformer.  `panic` is a result of its own that
  carries the state at the moment of the halt.
* `KERNBASE`, `PHYSTOP` (memlayout.h) and `end` (kernel.ld) are parameters, gathered
  in `MemLayout`.
-/

namespace Xv6

/-! ## Constants -/

/-- Bytes per page (`PGSIZE`, riscv.h). -/
def PGSIZE : Nat := 4096

/-- Bytes per huge page (`PGSIZE_2M`, riscv.h): 512 pages. -/
def PGSIZE_2M : Nat := 2097152

/-- Number of values of a `uint`. -/
def UINT : Nat := 4294967296

/-- Number of values of a `uint64`. -/
def UINT64 : Nat := 18446744073709551616

/-- The three addresses the allocator is compiled against: `KERNBASE` and `PHYSTOP`
of memlayout.h, and `kend`, the linker symbol `end` (first address after the kernel). -/
structure MemLayout where
  KERNBASE : Nat
  PHYSTOP : Nat
  kend : Nat

/-- The layout of stock xv6 (`KERNBASE = 0x80000000`, `PHYSTOP = KERNBASE + 128MB`)
with a kernel image that ends 2MB below `PHYSTOP`. -/
def tinyLayout : MemLayout :=
  { KERNBASE := 0x80000000, PHYSTOP := 0x88000000, kend := 0x87E00000 }

/-- The layout of stock xv6 with a kernel image that ends at `0x80022000`. -/
def stockLayout : MemLayout :=
  { KERNBASE := 0x80000000, PHYSTOP := 0x88000000, kend := 0x80022000 }

/-- The macro `PGROUNDUP(sz)` of riscv.h: `((sz) + PGSIZE - 1) & ~(PGSIZE - 1)` on `uint64`. -/
def PGROUNDUP (sz : Nat) : Nat := (sz + PGSIZE - 1) % UINT64 / PGSIZE * PGSIZE

/-! ## `kernel/kalloc.c` -/

/-- The global `kmem` without its spin lock: the two free lists and the
reference-count array (indexed by page-frame number). -/
structure Kmem where
  freelist : List Nat
  huge_freelist : List Nat
  ref_counts : Nat → Nat

/-- Result of a function that may `panic`. -/
inductive KResult where
  | done (s : Kmem)
  | panic (s : Kmem)

/-- Index into `kmem.ref_counts` of the frame at `pa`:
`((uint64)pa - KERNBASE) / PGSIZE`. -/
def pfn (L : MemLayout) (pa : Nat) : Nat :=
  (pa + UINT64 - L.KERNBASE) % UINT64 / PGSIZE

/-- Index of the `i`-th sub-frame of the extent at `pa`:
`(((uint64)pa) - KERNBASE) / PGSIZE + i`. -/
def pfnAt (L : MemLayout) (pa i : Nat) : Nat := (pfn L pa + i) % UINT64

/-- Array store `a[i] = v`. -/
def setRef (a : Nat → Nat) (i v : Nat) : Nat → Nat :=
  fun j => if j = i then v else a j

/-- Pre-decrement `--x` of a `uint`. -/
def dec32 (x : Nat) : Nat := (x + UINT - 1) % UINT

/-- Increment `x++` of a `uint`. -/
def inc32 (x : Nat) : Nat := (x + 1) % UINT

/-- The function `inc_ref`. -/
def inc_ref (L : MemLayout) (s : Kmem) (pa : Nat) : Kmem :=
  { s with ref_counts := setRef s.ref_counts (pfn L pa) (inc32 (s.ref_counts (pfn L pa))) }

/-- The function `get_ref`: the `uint` count converted to `int`. -/
def get_ref (L : MemLayout) (s : Kmem) (pa : Nat) : Int :=
  let c := s.ref_counts (pfn L pa) % UINT
  if c < 2147483648 then (c : Int) else (c : Int) - 4294967296

/-- The function `kfree`. -/
def kfree (L : MemLayout) (s : Kmem) (pa : Nat) : KResult :=
  if pa % PGSIZE ≠ 0 ∨ pa < L.kend ∨ pa ≥ L.PHYSTOP then
    .panic s
  else
    let c := dec32 (s.ref_counts (pfn L pa))
    let rc := setRef s.ref_counts (pfn L pa) c
    if c > 0 then
      .done { s with ref_counts := rc }
    else
      .done { freelist := pa :: s.freelist, huge_freelist := s.huge_freelist,
              ref_counts := rc }

/-- The function `kalloc`; the returned address `0` is the null pointer. -/
def kalloc (L : MemLayout) (s : Kmem) : Nat × Kmem :=
  match s.freelist with
  | [] => (0, s)
  | r :: next =>
    (r, { freelist := next, huge_freelist := s.huge_freelist,
          ref_counts := setRef s.ref_counts (pfn L r) 1 })

/-- The function `kalloc_huge`; it does not write any reference count. -/
def kalloc_huge (s : Kmem) : Nat × Kmem :=
  match s.huge_freelist with
  | [] => (0, s)
  | r :: next => (r, { s with huge_freelist := next })

/-- The `for` loop of `kfree_huge`, `n` iterations left, at index `i`.  Returns the
counts and whether the loop ran to its end (`false`: the early `return`). -/
def kfree_huge_sweep (L : MemLayout) (pa : Nat) : Nat → Nat → (Nat → Nat) → Bool × (Nat → Nat)
  | 0, _, rc => (true, rc)
  | n + 1, i, rc =>
    let c := dec32 (rc (pfnAt L pa i))
    let rc1 := setRef rc (pfnAt L pa i) c
    if c > 0 then (false, rc1) else kfree_huge_sweep L pa n (i + 1) rc1

/-- The function `kfree_huge`. -/
def kfree_huge (L : MemLayout) (s : Kmem) (pa : Nat) : KResult :=
  if pa % PGSIZE_2M ≠ 0 ∨ pa < L.kend ∨ pa ≥ L.PHYSTOP then
    .panic s
  else
    match kfree_huge_sweep L pa 512 0 s.ref_counts with
    | (false, rc) => .done { s with ref_counts := rc }
    | (true, rc) =>
      .done { freelist := s.freelist, huge_freelist := pa :: s.huge_freelist,
              ref_counts := rc }

/-- The inner `for` loop of `freerange`: `ref_counts[pfn + i] = 1` for `i` from
`i` on, `n` iterations left. -/
def mark_huge (L : MemLayout) (pa : Nat) : Nat → Nat → (Nat → Nat) → (Nat → Nat)
  | 0, _, rc => rc
  | n + 1, i, rc => mark_huge L pa n (i + 1) (setRef rc (pfnAt L pa i) 1)

/-- The `while` loop of `freerange`.  Every iteration advances `p` by at least
`PGSIZE`, so `fuel` iterations suffice when `fuel * PGSIZE > end_addr - p`. -/
def freerange_loop (L : MemLayout) (end_addr : Nat) : Nat → Nat → Kmem → KResult
  | 0, _, s => .done s
  | fuel + 1, p, s =>
    if p + PGSIZE ≤ end_addr then
      if p % PGSIZE_2M = 0 ∧ p + PGSIZE_2M ≤ end_addr then
        match kfree_huge L { s with ref_counts := mark_huge L p 512 0 s.ref_counts } p with
        | .done s1 => freerange_loop L end_addr fuel (p + PGSIZE_2M) s1
        | .panic s1 => .panic s1
      else
        match kfree L { s with ref_counts := setRef s.ref_counts (pfn L p) 1 } p with
        | .done s1 => freerange_loop L end_addr fuel (p + PGSIZE) s1
        | .panic s1 => .panic s1
    else .done s

/-- The function `freerange`. -/
def freerange (L : MemLayout) (s : Kmem) (pa_start pa_end : Nat) : KResult :=
  freerange_loop L pa_end (pa_end / PGSIZE + 1) (PGROUNDUP pa_start) s

/-- The zero-initialised global `kmem`. -/
def kmem0 : Kmem := { freelist := [], huge_freelist := [], ref_counts := fun _ => 0 }

/-- The function `kinit` (its diagnostic print apart). -/
def kinit (L : MemLayout) : KResult := freerange L kmem0 L.kend L.PHYSTOP

/-- The function `freemem_amount`: the two counting loops on a `uint64`. -/
def freemem_amount (s : Kmem) : Nat :=
  let a1 := s.freelist.foldl (fun amount _ => (amount + PGSIZE) % UINT64) 0
  let a2 := s.huge_freelist.foldl (fun amount _ => (amount + PGSIZE_2M) % UINT64) a1
  a2 / 1024

/-! ## `kernel/grouplock.c` -/

/-- The constant `MAX_GROUPLOCKS` of grouplock.h. -/
def MAX_GROUPLOCKS : Int := 64

/-- The type `struct grouplock` without its debug spin lock.  `state` holds a
`group_element_t` (`GROUP_ELEM_0 = 0`, `GROUP_ELEM_1 = 1`), `name` the bytes of
`char name[16]` by index. -/
structure grouplock where
  state : Nat
  group_id : Int
  holder_pid : Int
  name : Nat → Nat
  ref_count : Int
  acquire_time : Nat

/-- The global array `grouplocks`, by slot index. -/
abbrev LockTable := Nat → grouplock

/-- Store into `grouplocks[i]`. -/
def setSlot (t : LockTable) (i : Nat) (g : grouplock) : LockTable :=
  fun j => if j = i then g else t j

/-- The function `group_add`: `(a + b) % 2` on the unsigned enum type. -/
def group_add (a b : Nat) : Nat := (a + b) % UINT % 2

/-- The function `group_inverse`. -/
def group_inverse (a : Nat) : Nat := a

/-- The function `group_is_identity`: the C truth value of `a == GROUP_ELEM_0`. -/
def group_is_identity (a : Nat) : Int := if a = 0 then 1 else 0

/-- The builtin `__sync_bool_compare_and_swap(addr, expected, desired)` on a cell holding `cell`:
whether the swap took place, and the content of the cell afterwards. -/
def cas (cell expected desired : Nat) : Bool × Nat :=
  if cell = expected then (true, desired) else (false, cell)

/-- The compare-and-swap on the cell `grouplocks[i].state`; a failed swap leaves the
table as it is. -/
def cas_state (t : LockTable) (i expected desired : Nat) : Bool × LockTable :=
  match cas (t i).state expected desired with
  | (true, v) => (true, setSlot t i { t i with state := v })
  | (false, _) => (false, t)

/-- The function `atomic_group_add` on a cell holding `cell`: the old value, which it
returns, and the content of the cell afterwards.  Run without interference, the
compare-and-swap compares the cell with the value read on the line before it, so the
body of the `do … while` runs once. -/
def atomic_group_add (cell value : Nat) : Nat × Nat :=
  let expected := cell
  let desired := group_add expected value
  (expected, (cas cell expected desired).2)

/-- A `for (int a = 0; a < 2; a++)` loop whose body is a check: all iterations pass. -/
def forBoth (body : Nat → Bool) : Bool := body 0 && body 1

/-- The function `verify_group_properties`. -/
def verify_group_properties : Int :=
  if !(forBoth fun a => forBoth fun b =>
        !(decide (group_add a b ≠ 0) && decide (group_add a b ≠ 1))) then -1
  else if !(forBoth fun a => forBoth fun b =>
        !(decide (group_add a b ≠ group_add b a))) then -1
  else if !(forBoth fun a => forBoth fun b => forBoth fun c =>
        !(decide (group_add (group_add a b) c ≠ group_add a (group_add b c)))) then -1
  else if !(forBoth fun a =>
        !(decide (group_add a 0 ≠ a) || decide (group_add 0 a ≠ a))) then -1
  else if !(forBoth fun a =>
        !(decide (group_add a (group_inverse a) ≠ 0))) then -1
  else 0

/-- The function `verify_deadlock_freedom`. -/
def verify_deadlock_freedom : Int :=
  if !(forBoth fun state =>
        !(decide (group_add state (group_inverse state) ≠ 0))) then -1
  else 0

/-- The function `verify_atomic_group_operations`, on its local cell `test_state`. -/
def verify_atomic_group_operations : Int :=
  let r1 := atomic_group_add 0 1
  if r1.1 ≠ 0 ∨ r1.2 ≠ 1 then -1
  else
    let r2 := atomic_group_add r1.2 1
    if r2.1 ≠ 1 ∨ r2.2 ≠ 0 then -1 else 0

/-- The slot loop of `grouplock_init`, `n` slots left, at slot `i`. -/
def grouplock_init_loop : Nat → Nat → LockTable → LockTable
  | 0, _, t => t
  | n + 1, i, t =>
    grouplock_init_loop n (i + 1)
      (setSlot t i { t i with group_id := -1, state := 0, holder_pid := -1,
                              ref_count := 0, acquire_time := 0 })

/-- The function `grouplock_init`; `none` is its `panic`. -/
def grouplock_init (t : LockTable) : Option LockTable :=
  if verify_group_properties ≠ 0 then none else some (grouplock_init_loop 64 0 t)

/-- The name-copy loop of `grouplock_create`:
`while (len < 15 && name[len] != 0) { dst[len] = name[len]; len++; }`.
`len` grows by one per iteration and the loop stops at 15, so 15 iterations
(`fuel`) always suffice. -/
def name_copy_loop (name : Nat → Nat) : Nat → Nat → (Nat → Nat) → Nat × (Nat → Nat)
  | 0, len, dst => (len, dst)
  | fuel + 1, len, dst =>
    if len < 15 ∧ name len ≠ 0 then
      name_copy_loop name fuel (len + 1) (setRef dst len (name len))
    else (len, dst)

/-- The function `grouplock_create`; `name` gives the bytes at the `char *`. -/
def grouplock_create (t : LockTable) (group_id : Int) (name : Nat → Nat) : Int × LockTable :=
  if group_id < 0 ∨ group_id ≥ MAX_GROUPLOCKS then (-1, t)
  else if (t group_id.toNat).group_id ≠ -1 then (-2, t)
  else
    let r := name_copy_loop name 15 0 (t group_id.toNat).name
    (0, setSlot t group_id.toNat
          { state := 0, group_id := group_id, holder_pid := -1,
            name := setRef r.2 r.1 0, ref_count := 1, acquire_time := 0 })

/-- The `while (1)` loop of `grouplock_acquire` for the caller `pid` at tick count
`ticks`, run without interference; `none`: still spinning after `fuel` attempts. -/
def grouplock_acquire_spin (pid : Int) (ticks : Nat) (i : Nat) :
    Nat → LockTable → Option (Int × LockTable)
  | 0, _ => none
  | fuel + 1, t =>
    match cas_state t i 0 1 with
    | (true, t1) =>
      let t2 := setSlot t1 i { t1 i with holder_pid := pid }
      some (0, setSlot t2 i { t2 i with acquire_time := ticks })
    | (false, t1) => grouplock_acquire_spin pid ticks i fuel t1

/-- The function `grouplock_acquire`, called by process `pid` (`myproc()->pid`). -/
def grouplock_acquire (fuel : Nat) (t : LockTable) (pid : Int) (ticks : Nat)
    (group_id : Int) : Option (Int × LockTable) :=
  if group_id < 0 ∨ group_id ≥ MAX_GROUPLOCKS then some (-1, t)
  else if (t group_id.toNat).group_id = -1 then some (-2, t)
  else grouplock_acquire_spin pid ticks group_id.toNat fuel t

/-- The function `grouplock_release`, called by process `pid`. -/
def grouplock_release (t : LockTable) (pid : Int) (group_id : Int) : Int × LockTable :=
  if group_id < 0 ∨ group_id ≥ MAX_GROUPLOCKS then (-1, t)
  else if (t group_id.toNat).group_id = -1 then (-2, t)
  else if (t group_id.toNat).holder_pid ≠ pid then (-3, t)
  else
    let t1 := setSlot t group_id.toNat { t group_id.toNat with holder_pid := -1 }
    let t2 := setSlot t1 group_id.toNat { t1 group_id.toNat with acquire_time := 0 }
    let r := atomic_group_add (t2 group_id.toNat).state 1
    (0, setSlot t2 group_id.toNat { t2 group_id.toNat with state := r.2 })

/-- The function `grouplock_destroy`. -/
def grouplock_destroy (t : LockTable) (group_id : Int) : Int × LockTable :=
  if group_id < 0 ∨ group_id ≥ MAX_GROUPLOCKS then (-1, t)
  else if (t group_id.toNat).group_id = -1 then (-2, t)
  else if (t group_id.toNat).state ≠ 0 then (-3, t)
  else
    let t1 := setSlot t group_id.toNat { t group_id.toNat with group_id := -1 }
    (0, setSlot t1 group_id.toNat { t1 group_id.toNat with ref_count := 0 })

/-! ## Interleaved execution of `grouplock_acquire` / `grouplock_release`

Several processes run acquire/release pairs on the lock in slot `i`.  A process is
identified with its pid and advances by one access to the shared slot at a time; the
scheduler picks the process that moves.  The program counter names the statement the
process executes next. -/

/-- Position of a process inside its current acquire/release pair.
* `out`: outside both functions, about to call `grouplock_acquire`;
* `acq_cas`: in the `while (1)` loop, at the compare-and-swap of the state from 0 to 1;
* `acq_holder`: the swap succeeded, at `holder_pid = p->pid`;
* `acq_time`: at `acquire_time = ticks`, after which `grouplock_acquire` returns 0;
* `crit`: `grouplock_acquire` has returned 0, about to call `grouplock_release`;
* `rel_check`: in `grouplock_release`, at the holder test;
* `rel_holder`: at `holder_pid = -1`;
* `rel_time`: at `acquire_time = 0`;
* `rel_load`: in `atomic_group_add`, at `expected = *addr`;
* `rel_cas e`: at the compare-and-swap of `atomic_group_add` with `expected = e`; its
  success is the last access of `grouplock_release` to the lock. -/
inductive PC where
  | out
  | acq_cas
  | acq_holder
  | acq_time
  | crit
  | rel_check
  | rel_holder
  | rel_time
  | rel_load
  | rel_cas (expected : Nat)
  deriving DecidableEq

/-- The shared lock table and the position of every process. -/
structure Conf where
  locks : LockTable
  pc : Int → PC

/-- Move process `p` to position `x`. -/
def setPc (pc : Int → PC) (p : Int) (x : PC) : Int → PC :=
  fun q => if q = p then x else pc q

/-- One step of process `p` on the lock in slot `i`, the tick counter reading `ticks`. -/
def stepProc (i : Nat) (c : Conf) (p : Int) (ticks : Nat) : Conf :=
  match c.pc p with
  | .out =>
    if (c.locks i).group_id = -1 then c
    else { c with pc := setPc c.pc p .acq_cas }
  | .acq_cas =>
    match cas_state c.locks i 0 1 with
    | (true, t1) => { locks := t1, pc := setPc c.pc p .acq_holder }
    | (false, t1) => { locks := t1, pc := c.pc }
  | .acq_holder =>
    { locks := setSlot c.locks i { c.locks i with holder_pid := p },
      pc := setPc c.pc p .acq_time }
  | .acq_time =>
    { locks := setSlot c.locks i { c.locks i with acquire_time := ticks },
      pc := setPc c.pc p .crit }
  | .crit =>
    if (c.locks i).group_id = -1 then { c with pc := setPc c.pc p .out }
    else { c with pc := setPc c.pc p .rel_check }
  | .rel_check =>
    if (c.locks i).holder_pid ≠ p then { c with pc := setPc c.pc p .out }
    else { c with pc := setPc c.pc p .rel_holder }
  | .rel_holder =>
    { locks := setSlot c.locks i { c.locks i with holder_pid := -1 },
      pc := setPc c.pc p .rel_time }
  | .rel_time =>
    { locks := setSlot c.locks i { c.locks i with acquire_time := 0 },
      pc := setPc c.pc p .rel_load }
  | .rel_load => { c with pc := setPc c.pc p (.rel_cas (c.locks i).state) }
  | .rel_cas e =>
    match cas_state c.locks i e (group_add e 1) with
    | (true, t1) => { locks := t1, pc := setPc c.pc p .out }
    | (false, t1) => { locks := t1, pc := setPc c.pc p .rel_load }

/-- Configurations reached from the table `t0` with every process outside, under any
schedule and any tick readings. -/
inductive Reachable (i : Nat) (t0 : LockTable) : Conf → Prop where
  | init : Reachable i t0 { locks := t0, pc := fun _ => .out }
  | step (c : Conf) (p : Int) (ticks : Nat) :
      Reachable i t0 c → Reachable i t0 (stepProc i c p ticks)

/-- The process holds the lock: its acquire has returned 0 and its release has not yet
flipped the state back. -/
def holds : PC → Bool
  | .crit | .rel_check | .rel_holder | .rel_time | .rel_load | .rel_cas _ => true
  | _ => false

/-- The process has won the compare-and-swap of acquire and its release has not yet
flipped the state back. -/
def owns : PC → Bool
  | .out | .acq_cas => false
  | _ => true

/-- The inductive invariant of the interleaved execution: either the state is 0 and no
process owns the lock, or the state is 1 and exactly one process owns it, the holder
field naming it between its store of the holder and its holder test. -/
def LockInv (i : Nat) (c : Conf) : Prop :=
  (c.locks i).group_id ≠ -1 ∧
  (((c.locks i).state = 0 ∧ ∀ r, owns (c.pc r) = false) ∨
   ((c.locks i).state = 1 ∧ ∃ p, owns (c.pc p) = true ∧
      (∀ r, r ≠ p → owns (c.pc r) = false) ∧
      (c.pc p = .acq_time ∨ c.pc p = .crit ∨ c.pc p = .rel_check →
        (c.locks i).holder_pid = p) ∧
      (∀ e, c.pc p = .rel_cas e → e = 1)))

/-- The state carried by a result. -/
def KResult.state : KResult → Kmem
  | .done s => s
  | .panic s => s

/-- Whether a result is a `panic`. -/
def KResult.halted : KResult → Bool
  | .done _ => false
  | .panic _ => true

/-! ## `kernel/sysproc.c` -/

/-- The function `sys_grouplock_verify`; it returns a `uint64`, so its `-1` is the value
`2^64 - 1`. -/
def sys_grouplock_verify : Nat :=
  let result1 := verify_group_properties
  let result2 := verify_deadlock_freedom
  let result3 := verify_atomic_group_operations
  if result1 = 0 ∧ result2 = 0 ∧ result3 = 0 then 0 else UINT64 - 1

/-- The function `sys_freemem`. -/
def sys_freemem (s : Kmem) : Nat := freemem_amount s

/-! ## Sequential use of the lock registry -/

/-- A slot is consistent: unlocked without holder, or locked with a holder. -/
def SlotOk (g : grouplock) : Prop :=
  (g.state = 0 ∧ g.holder_pid = -1) ∨ (g.state = 1 ∧ g.holder_pid ≠ -1)

/-- Every slot of the table `grouplocks[MAX_GROUPLOCKS]` is consistent. -/
def TableOk (t : LockTable) : Prop := ∀ j, j < 64 → SlotOk (t j)

/-- Lock tables reached from `grouplock_init` by calls of create, acquire, release and
destroy, each call run to its return before the next one starts, the callers of acquire
and release having a pid other than -1.  A call of acquire that does not return
contributes no table. -/
inductive TableReach : LockTable → Prop where
  | init (t0 t : LockTable) : grouplock_init t0 = some t → TableReach t
  | create (t : LockTable) (id : Int) (name : Nat → Nat) :
      TableReach t → TableReach (grouplock_create t id name).2
  | acquire (t : LockTable) (pid : Int) (ticks : Nat) (id : Int) (fuel : Nat)
      (r : Int × LockTable) :
      pid ≠ -1 → TableReach t → grouplock_acquire fuel t pid ticks id = some r →
      TableReach r.2
  | release (t : LockTable) (pid : Int) (id : Int) :
      pid ≠ -1 → TableReach t → TableReach (grouplock_release t pid id).2
  | destroy (t : LockTable) (id : Int) :
      TableReach t → TableReach (grouplock_destroy t id).2

/-! ## Coverage of frames by the free lists -/

/-- How often the frame at `p` occurs as an entry of the small free list. -/
def smallCover (s : Kmem) (p : Nat) : Nat := s.freelist.count p

/-- How many extents of the huge free list contain the frame at `p`. -/
def hugeCover (s : Kmem) (p : Nat) : Nat :=
  s.huge_freelist.countP (fun E => decide (E ≤ p ∧ p < E + PGSIZE_2M))

/-- The address `E` is the base of a 2MB-aligned extent lying wholly inside `[p, e)`. -/
def hugeBase (p e E : Nat) : Prop := E % 2097152 = 0 ∧ p ≤ E ∧ E + 2097152 ≤ e

/-- The address `q` is a 4KB frame inside `[p, e)` whose enclosing 2MB-aligned block
does not lie wholly inside `[p, e)`. -/
def smallFrame (p e q : Nat) : Prop :=
  q % 4096 = 0 ∧ p ≤ q ∧ q + 4096 ≤ e ∧
    ¬ (p ≤ q / 2097152 * 2097152 ∧ q / 2097152 * 2097152 + 2097152 ≤ e)

/-! ## Call sequences -/

/-- The state after `n` calls of `inc_ref(pa)`. -/
def inc_ref_n (L : MemLayout) (s : Kmem) (pa : Nat) : Nat → Kmem
  | 0 => s
  | n + 1 => inc_ref L (inc_ref_n L s pa n) pa

/-- The result of `n` calls of `kfree(pa)`; a `panic` ends the sequence. -/
def kfree_n (L : MemLayout) (s : Kmem) (pa : Nat) : Nat → KResult
  | 0 => .done s
  | n + 1 =>
    match kfree_n L s pa n with
    | .done s1 => kfree L s1 pa
    | .panic s1 => .panic s1

/-- The result of `n` calls of `kfree_huge(pa)`; a `panic` ends the sequence. -/
def kfree_huge_n (L : MemLayout) (s : Kmem) (pa : Nat) : Nat → KResult
  | 0 => .done s
  | n + 1 =>
    match kfree_huge_n L s pa n with
    | .done s1 => kfree_huge L s1 pa
    | .panic s1 => .panic s1

/-! ## Sample states -/

/-- The extent at `0x87E00000` (indices 32256 to 32767 under `tinyLayout`) held by two
owners: count 2 on each of its 512 sub-frames, count 0 elsewhere, both lists empty. -/
def sharedTwice : Kmem :=
  { freelist := [], huge_freelist := [],
    ref_counts := fun j => if 32256 ≤ j ∧ j < 32768 then 2 else 0 }


/-- The extent at `0x87E00000` (indices 32256 to 32767 under `tinyLayout`) allocated,
with one more sharer on its first sub-frame: count 2 there, count 1 on the 511 other
sub-frames, count 0 elsewhere, both lists empty. -/
def sharedFirst : Kmem :=
  { freelist := [], huge_freelist := [],
    ref_counts := fun j => if j = 32256 then 2 else if 32256 < j ∧ j < 32768 then 1 else 0 }

/-- An allocator state with empty lists and every count equal to `c`. -/
def constKmem (c : Nat) : Kmem := { freelist := [], huge_freelist := [], ref_counts := fun _ => c }

/-- An allocator state with two frames on the small list. -/
def twoFree : Kmem :=
  { freelist := [0x87DFF000, 0x87DFE000], huge_freelist := [], ref_counts := fun _ => 0 }

/-- A lock slot with the given state, id and holder and an empty name. -/
def mkLock (state : Nat) (group_id holder_pid : Int) : grouplock :=
  { state := state, group_id := group_id, holder_pid := holder_pid, name := fun _ => 0,
    ref_count := 1, acquire_time := 0 }

/-- A lock table whose every slot is unbound. -/
def emptyTable : LockTable := fun _ => mkLock 0 (-1) (-1)

/-- A lock table whose slot 1 holds `g`, every other slot being unbound. -/
def oneLock (g : grouplock) : LockTable := setSlot emptyTable 1 g

/-- Lock 1 bound and free, process 7 having run `grouplock_acquire` to its return at
tick 5 while every other process is outside. -/
def heldBy7 : Conf :=
  stepProc 1 (stepProc 1 (stepProc 1 (stepProc 1
    { locks := oneLock (mkLock 0 1 (-1)), pc := fun _ => .out } 7 0) 7 0) 7 0) 7 5

/-- The bytes of the C string "ab". -/
def nameAb : Nat → Nat := fun k => if k = 0 then 97 else if k = 1 then 98 else 0

/-- The table after `grouplock_init` on `emptyTable`, `grouplock_create(1, "ab")` and
`grouplock_acquire(1)` by process 7 at tick 5. -/
def lockedBy7 : LockTable :=
  setSlot (grouplock_create (grouplock_init_loop 64 0 emptyTable) 1 nameAb).2 1
    { (grouplock_create (grouplock_init_loop 64 0 emptyTable) 1 nameAb).2 1 with
      state := 1, holder_pid := 7, acquire_time := 5 }

/-! ## Auxiliary lemmas -/

theorem setSlot_same (t : LockTable) (i : Nat) (g : grouplock) : setSlot t i g i = g := by
  simp [setSlot]

theorem setSlot_other (t : LockTable) (i j : Nat) (g : grouplock) (h : j ≠ i) :
    setSlot t i g j = t j := by
  simp [setSlot, h]

theorem setRef_same (a : Nat → Nat) (i v : Nat) : setRef a i v i = v := by
  simp [setRef]

theorem setRef_other (a : Nat → Nat) (i j v : Nat) (h : j ≠ i) : setRef a i v j = a j := by
  simp [setRef, h]

/-- The copy loop stops at `min 15 len` for a string of length `len` and has copied
exactly the bytes before that index. -/
theorem name_copy_loop_spec (name : Nat → Nat) (len : Nat) (hnul : name len = 0)
    (hnz : ∀ k, k < len → name k ≠ 0) :
    ∀ fuel k dst, k ≤ min 15 len → min 15 len ≤ k + fuel →
      (name_copy_loop name fuel k dst).1 = min 15 len ∧
      ∀ j, (name_copy_loop name fuel k dst).2 j =
        if k ≤ j ∧ j < min 15 len then name j else dst j := by
  intro fuel
  induction fuel with
  | zero =>
    intro k dst h1 h2
    have hk : k = min 15 len := by omega
    refine ⟨by simp [name_copy_loop, hk], ?_⟩
    intro j
    have : ¬ (k ≤ j ∧ j < min 15 len) := by omega
    simp only [name_copy_loop]
    rw [if_neg this]
  | succ fuel ih =>
    intro k dst h1 h2
    by_cases hg : k < 15 ∧ name k ≠ 0
    · have hkl : k ≠ len := by
        intro h
        exact hg.2 (h ▸ hnul)
      have hk1 : k + 1 ≤ min 15 len := by
        have : k ≤ len := le_trans h1 (min_le_right _ _)
        have : k + 1 ≤ len := by omega
        have : k + 1 ≤ 15 := by omega
        exact le_min ‹k + 1 ≤ 15› ‹k + 1 ≤ len›
      have := ih (k + 1) (setRef dst k (name k)) hk1 (by omega)
      simp only [name_copy_loop, if_pos hg]
      refine ⟨this.1, ?_⟩
      intro j
      rw [this.2 j]
      by_cases hjk : j = k
      · subst hjk
        have h3 : ¬ (j + 1 ≤ j ∧ j < min 15 len) := by omega
        have h4 : j ≤ j ∧ j < min 15 len := by omega
        rw [if_neg h3, if_pos h4, setRef_same]
      · by_cases hj : k + 1 ≤ j ∧ j < min 15 len
        · have h4 : k ≤ j ∧ j < min 15 len := by omega
          rw [if_pos hj, if_pos h4]
        · have h4 : ¬ (k ≤ j ∧ j < min 15 len) := by omega
          rw [if_neg hj, if_neg h4, setRef_other _ _ _ _ hjk]
    · have hk : k = min 15 len := by
        by_cases h15 : k < 15
        · have hz : name k = 0 := by
            by_contra hne
            exact hg ⟨h15, hne⟩
          have hge : ¬ k < len := fun hlt => hnz k hlt hz
          have : k ≤ len := le_trans h1 (min_le_right _ _)
          have hkl : k = len := by omega
          rw [hkl]
          rw [hkl] at h15
          exact (min_eq_right (le_of_lt h15)).symm
        · have : k ≤ 15 := le_trans h1 (min_le_left _ _)
          omega
      simp only [name_copy_loop, if_neg hg]
      refine ⟨hk, ?_⟩
      intro j
      have : ¬ (k ≤ j ∧ j < min 15 len) := by omega
      rw [if_neg this]

theorem pfn_lt (L : MemLayout) (pa : Nat) : pfn L pa < 4503599627370496 := by
  unfold pfn UINT64 PGSIZE
  omega

theorem pfnAt_eq (L : MemLayout) (pa i : Nat) (hi : i ≤ 512) :
    pfnAt L pa i = pfn L pa + i := by
  have := pfn_lt L pa
  unfold pfnAt UINT64
  omega

theorem dec32_one : dec32 1 = 0 := by decide

/-- The sweep over sub-frames that all have count 1 runs to its end and leaves them
at 0. -/
theorem kfree_huge_sweep_ones (L : MemLayout) (pa : Nat) :
    ∀ n i rc, i + n ≤ 512 →
      (∀ k, i ≤ k → k < i + n → rc (pfn L pa + k) = 1) →
      kfree_huge_sweep L pa n i rc =
        (true, fun j => if pfn L pa + i ≤ j ∧ j < pfn L pa + i + n then 0 else rc j) := by
  intro n
  induction n with
  | zero =>
    intro i rc _ _
    simp only [kfree_huge_sweep]
    refine congrArg (Prod.mk true) (funext fun j => ?_)
    have : ¬ (pfn L pa + i ≤ j ∧ j < pfn L pa + i + 0) := by omega
    rw [if_neg this]
  | succ n ih =>
    intro i rc hin hall
    have hidx : pfnAt L pa i = pfn L pa + i := pfnAt_eq L pa i (by omega)
    have hci : rc (pfn L pa + i) = 1 := hall i (le_refl _) (by omega)
    have hstep : kfree_huge_sweep L pa (n + 1) i rc =
        kfree_huge_sweep L pa n (i + 1) (setRef rc (pfn L pa + i) 0) := by
      rw [kfree_huge_sweep, hidx, hci, dec32_one]
      exact if_neg (Nat.lt_irrefl 0)
    rewrite [hstep, ih (i + 1) (setRef rc (pfn L pa + i) 0) (by omega)]
    · refine congrArg (Prod.mk true) (funext fun j => ?_)
      by_cases hj : j = pfn L pa + i
      · have h1 : ¬ (pfn L pa + (i + 1) ≤ j ∧ j < pfn L pa + (i + 1) + n) := by omega
        have h2 : pfn L pa + i ≤ j ∧ j < pfn L pa + i + (n + 1) := by omega
        rw [if_neg h1, if_pos h2, hj, setRef_same]
      · by_cases h1 : pfn L pa + (i + 1) ≤ j ∧ j < pfn L pa + (i + 1) + n
        · have h2 : pfn L pa + i ≤ j ∧ j < pfn L pa + i + (n + 1) := by omega
          rw [if_pos h1, if_pos h2]
        · have h2 : ¬ (pfn L pa + i ≤ j ∧ j < pfn L pa + i + (n + 1)) := by omega
          rw [if_neg h1, if_neg h2, setRef_other _ _ _ _ hj]
    · intro k hk1 hk2
      have hne : pfn L pa + k ≠ pfn L pa + i := by omega
      rw [setRef_other _ _ _ _ hne]
      exact hall k (by omega) (by omega)

/-- The sweep takes its early `return` as soon as one of the sub-frames still to be
visited has a decremented count above 0. -/
theorem kfree_huge_sweep_stops (L : MemLayout) (pa : Nat) :
    ∀ n i rc, i + n ≤ 512 →
      (∃ k, i ≤ k ∧ k < i + n ∧ dec32 (rc (pfn L pa + k)) > 0) →
      (kfree_huge_sweep L pa n i rc).1 = false := by
  intro n
  induction n with
  | zero =>
    intro i rc _ h
    obtain ⟨k, h1, h2, _⟩ := h
    omega
  | succ n ih =>
    intro i rc hin h
    obtain ⟨k, h1, h2, h3⟩ := h
    have hidx : pfnAt L pa i = pfn L pa + i := pfnAt_eq L pa i (by omega)
    by_cases hc : dec32 (rc (pfn L pa + i)) > 0
    · simp only [kfree_huge_sweep, hidx, if_pos hc]
    · simp only [kfree_huge_sweep, hidx, if_neg hc]
      apply ih (i + 1) _ (by omega)
      have hki : k ≠ i := by
        intro hki
        rw [hki] at h3
        exact hc h3
      refine ⟨k, by omega, by omega, ?_⟩
      have hne : pfn L pa + k ≠ pfn L pa + i := by omega
      rw [setRef_other _ _ _ _ hne]
      exact h3

/-- The marking loop of `freerange` sets the counts of the sub-frames it visits to 1. -/
theorem mark_huge_spec (L : MemLayout) (pa : Nat) :
    ∀ n i rc, i + n ≤ 512 →
      mark_huge L pa n i rc =
        fun j => if pfn L pa + i ≤ j ∧ j < pfn L pa + i + n then 1 else rc j := by
  intro n
  induction n with
  | zero =>
    intro i rc _
    simp only [mark_huge]
    funext j
    have : ¬ (pfn L pa + i ≤ j ∧ j < pfn L pa + i + 0) := by omega
    rw [if_neg this]
  | succ n ih =>
    intro i rc hin
    have hidx : pfnAt L pa i = pfn L pa + i := pfnAt_eq L pa i (by omega)
    rw [mark_huge, hidx, ih (i + 1) _ (by omega)]
    funext j
    by_cases hj : j = pfn L pa + i
    · have h1 : ¬ (pfn L pa + (i + 1) ≤ j ∧ j < pfn L pa + (i + 1) + n) := by omega
      have h2 : pfn L pa + i ≤ j ∧ j < pfn L pa + i + (n + 1) := by omega
      rw [if_neg h1, if_pos h2, hj, setRef_same]
    · by_cases h1 : pfn L pa + (i + 1) ≤ j ∧ j < pfn L pa + (i + 1) + n
      · have h2 : pfn L pa + i ≤ j ∧ j < pfn L pa + i + (n + 1) := by omega
        rw [if_pos h1, if_pos h2]
      · have h2 : ¬ (pfn L pa + i ≤ j ∧ j < pfn L pa + i + (n + 1)) := by omega
        rw [if_neg h1, if_neg h2, setRef_other _ _ _ _ hj]

/-- The second half of `kfree_huge` after a sweep that ran to its end. -/
theorem kfree_huge_of_sweep_true (L : MemLayout) (s : Kmem) (E : Nat) (rc : Nat → Nat)
    (hg : ¬ (E % PGSIZE_2M ≠ 0 ∨ E < L.kend ∨ E ≥ L.PHYSTOP))
    (h : kfree_huge_sweep L E 512 0 s.ref_counts = (true, rc)) :
    kfree_huge L s E =
      KResult.done { freelist := s.freelist, huge_freelist := E :: s.huge_freelist,
                     ref_counts := rc } := by
  simp only [kfree_huge, if_neg hg, h]

/-- What `freerange` does with one 2MB extent: after the marking loop, `kfree_huge`
brings the 512 counts back to 0 and links the extent into the huge list. -/
theorem freerange_huge_step (L : MemLayout) (s : Kmem) (E : Nat)
    (halign : E % PGSIZE_2M = 0) (hlo : L.kend ≤ E) (hhi : E < L.PHYSTOP) :
    kfree_huge L { s with ref_counts := mark_huge L E 512 0 s.ref_counts } E =
      KResult.done
        { freelist := s.freelist, huge_freelist := E :: s.huge_freelist,
          ref_counts := fun j =>
            if pfn L E ≤ j ∧ j < pfn L E + 512 then 0 else s.ref_counts j } := by
  have hg : ¬ (E % PGSIZE_2M ≠ 0 ∨ E < L.kend ∨ E ≥ L.PHYSTOP) := by omega
  have hm := mark_huge_spec L E 512 0 s.ref_counts (by omega)
  generalize mark_huge L E 512 0 s.ref_counts = m at hm
  have hall : ∀ k, 0 ≤ k → k < 0 + 512 → m (pfn L E + k) = 1 := by
    intro k _ hk
    have h2 : pfn L E + 0 ≤ pfn L E + k ∧ pfn L E + k < pfn L E + 0 + 512 := by omega
    rw [hm]
    exact if_pos h2
  have hsw := kfree_huge_sweep_ones L E 512 0 m (by omega) hall
  obtain ⟨s1, hs1⟩ : ∃ s1 : Kmem, s1 = { s with ref_counts := m } := ⟨_, rfl⟩
  have hrc : s1.ref_counts = m := by rw [hs1]
  have hfl : s1.freelist = s.freelist := by rw [hs1]
  have hhl : s1.huge_freelist = s.huge_freelist := by rw [hs1]
  rewrite [← hs1]
  rewrite [← hrc] at hsw
  rewrite [kfree_huge_of_sweep_true L s1 E _ hg hsw, hfl, hhl, hrc]
  refine congrArg KResult.done ?_
  refine congrArg (Kmem.mk s.freelist (E :: s.huge_freelist)) (funext fun j => ?_)
  by_cases hj : pfn L E ≤ j ∧ j < pfn L E + 512
  · have h2 : pfn L E + 0 ≤ j ∧ j < pfn L E + 0 + 512 := by omega
    rw [if_pos h2, if_pos hj]
  · have h2 : ¬ (pfn L E + 0 ≤ j ∧ j < pfn L E + 0 + 512) := by omega
    rw [if_neg h2, if_neg hj, hm]
    exact if_neg h2

/-- Boot on `tinyLayout`: `kinit` finds the single extent at `0x87E00000`. -/
theorem kinit_tinyLayout :
    kinit tinyLayout =
      KResult.done
        { freelist := [], huge_freelist := [0x87E00000],
          ref_counts := fun j =>
            if pfn tinyLayout 0x87E00000 ≤ j ∧ j < pfn tinyLayout 0x87E00000 + 512 then 0
            else 0 } := by
  have hstart : PGROUNDUP tinyLayout.kend = 0x87E00000 := by decide
  have hfuel : tinyLayout.PHYSTOP / PGSIZE + 1 = 557055 + 1 + 1 := by decide
  have hend : tinyLayout.PHYSTOP = 0x88000000 := rfl
  have h1 : 0x87E00000 + PGSIZE ≤ 0x88000000 := by decide
  have h2 : 0x87E00000 % PGSIZE_2M = 0 ∧ 0x87E00000 + PGSIZE_2M ≤ 0x88000000 := by decide
  have h3 : ¬ (0x87E00000 + PGSIZE_2M + PGSIZE ≤ 0x88000000) := by decide
  have hstep := freerange_huge_step tinyLayout kmem0 0x87E00000 (by decide) (by decide)
    (by decide)
  rw [kinit, freerange, hstart, hfuel, hend, freerange_loop, if_pos h1, if_pos h2, hstep]
  show freerange_loop tinyLayout 0x88000000 (557055 + 1) (0x87E00000 + PGSIZE_2M) _ = _
  rw [freerange_loop, if_neg h3]
  rfl

/-! ## Auxiliary lemmas: interleaved execution -/

theorem setPc_same (pc : Int → PC) (p : Int) (x : PC) : setPc pc p x p = x := by
  simp [setPc]

theorem setPc_other (pc : Int → PC) (p r : Int) (x : PC) (h : r ≠ p) :
    setPc pc p x r = pc r := by
  simp [setPc, h]

/-- Moving a process to a position that does not own the lock keeps every process that
did not own it before out of ownership. -/
theorem owns_setPc_false (pc : Int → PC) (p : Int) (x : PC) (hx : owns x = false)
    (h : ∀ r, r ≠ p → owns (pc r) = false) : ∀ r, owns (setPc pc p x r) = false := by
  intro r
  by_cases hr : r = p
  · rw [hr, setPc_same]; exact hx
  · rw [setPc_other _ _ _ _ hr]; exact h r hr

theorem lockInv_free (i : Nat) (t : LockTable) (pc : Int → PC)
    (hb : (t i).group_id ≠ -1) (hs : (t i).state = 0) (hno : ∀ r, owns (pc r) = false) :
    LockInv i { locks := t, pc := pc } :=
  ⟨hb, Or.inl ⟨hs, hno⟩⟩

theorem lockInv_owned (i : Nat) (t : LockTable) (pc : Int → PC) (o : Int)
    (hb : (t i).group_id ≠ -1) (hs : (t i).state = 1) (ho : owns (pc o) = true)
    (hothers : ∀ r, r ≠ o → owns (pc r) = false)
    (hhold : pc o = .acq_time ∨ pc o = .crit ∨ pc o = .rel_check → (t i).holder_pid = o)
    (hexp : ∀ e, pc o = .rel_cas e → e = 1) :
    LockInv i { locks := t, pc := pc } :=
  ⟨hb, Or.inr ⟨hs, o, ho, hothers, hhold, hexp⟩⟩

/-- The owner moves to the position `x`, which still owns the lock. -/
theorem lockInv_owner_moves (i : Nat) (t : LockTable) (pc : Int → PC) (o : Int) (x : PC)
    (hb : (t i).group_id ≠ -1) (hs : (t i).state = 1) (hx : owns x = true)
    (hothers : ∀ r, r ≠ o → owns (pc r) = false)
    (hhold : x = .acq_time ∨ x = .crit ∨ x = .rel_check → (t i).holder_pid = o)
    (hexp : ∀ e, x = .rel_cas e → e = 1) :
    LockInv i { locks := t, pc := setPc pc o x } := by
  apply lockInv_owned i t _ o hb hs
  · rw [setPc_same]; exact hx
  · intro r hr
    rw [setPc_other _ _ _ _ hr]; exact hothers r hr
  · rw [setPc_same]; exact hhold
  · rw [setPc_same]; exact hexp

/-- Every step of every process preserves the lock invariant. -/
theorem lockInv_step (i : Nat) (c : Conf) (p : Int) (ticks : Nat) (h : LockInv i c) :
    LockInv i (stepProc i c p ticks) := by
  obtain ⟨hb, hcase⟩ := h
  rcases hcase with ⟨hs, hno⟩ | ⟨hs, o, ho, hothers, hhold, hexp⟩
  · -- the lock is free
    have hp := hno p
    cases hpc : c.pc p with
    | out =>
      simp only [stepProc, hpc, if_neg hb]
      exact lockInv_free i _ _ hb hs (owns_setPc_false _ _ _ rfl (fun r _ => hno r))
    | acq_cas =>
      have hcas : cas_state c.locks i 0 1 =
          (true, setSlot c.locks i { c.locks i with state := 1 }) := by
        simp [cas_state, cas, hs]
      simp only [stepProc, hpc, hcas]
      apply lockInv_owner_moves i _ _ p .acq_holder
      · simpa [setSlot] using hb
      · simp [setSlot]
      · rfl
      · intro r _; exact hno r
      · intro h
        rcases h with h | h | h <;> exact absurd h (by decide)
      · intro e h
        exact absurd h (by simp)
    | acq_holder => rw [hpc] at hp; exact absurd hp (by decide)
    | acq_time => rw [hpc] at hp; exact absurd hp (by decide)
    | crit => rw [hpc] at hp; exact absurd hp (by decide)
    | rel_check => rw [hpc] at hp; exact absurd hp (by decide)
    | rel_holder => rw [hpc] at hp; exact absurd hp (by decide)
    | rel_time => rw [hpc] at hp; exact absurd hp (by decide)
    | rel_load => rw [hpc] at hp; exact absurd hp (by decide)
    | rel_cas e => rw [hpc] at hp; exact absurd hp (by simp [owns])
  · -- process `o` owns the lock
    by_cases hpo : p = o
    · subst hpo
      cases hpc : c.pc p with
      | out => rw [hpc] at ho; exact absurd ho (by decide)
      | acq_cas => rw [hpc] at ho; exact absurd ho (by decide)
      | acq_holder =>
        simp only [stepProc, hpc]
        apply lockInv_owner_moves i _ _ p .acq_time
        · simpa [setSlot] using hb
        · simpa [setSlot] using hs
        · rfl
        · exact hothers
        · intro _
          simp [setSlot]
        · intro e h
          exact absurd h (by simp)
      | acq_time =>
        have hh := hhold (Or.inl hpc)
        simp only [stepProc, hpc]
        apply lockInv_owner_moves i _ _ p .crit
        · simpa [setSlot] using hb
        · simpa [setSlot] using hs
        · rfl
        · exact hothers
        · intro _
          simpa [setSlot] using hh
        · intro e h
          exact absurd h (by simp)
      | crit =>
        have hh := hhold (Or.inr (Or.inl hpc))
        simp only [stepProc, hpc, if_neg hb]
        apply lockInv_owner_moves i _ _ p .rel_check hb hs rfl hothers
        · intro _
          exact hh
        · intro e h
          exact absurd h (by simp)
      | rel_check =>
        have hh := hhold (Or.inr (Or.inr hpc))
        have hne : ¬ ((c.locks i).holder_pid ≠ p) := by simp [hh]
        simp only [stepProc, hpc, if_neg hne]
        apply lockInv_owner_moves i _ _ p .rel_holder hb hs rfl hothers
        · intro h
          rcases h with h | h | h <;> exact absurd h (by decide)
        · intro e h
          exact absurd h (by simp)
      | rel_holder =>
        simp only [stepProc, hpc]
        apply lockInv_owner_moves i _ _ p .rel_time
        · simpa [setSlot] using hb
        · simpa [setSlot] using hs
        · rfl
        · exact hothers
        · intro h
          rcases h with h | h | h <;> exact absurd h (by decide)
        · intro e h
          exact absurd h (by simp)
      | rel_time =>
        simp only [stepProc, hpc]
        apply lockInv_owner_moves i _ _ p .rel_load
        · simpa [setSlot] using hb
        · simpa [setSlot] using hs
        · rfl
        · exact hothers
        · intro h
          rcases h with h | h | h <;> exact absurd h (by decide)
        · intro e h
          exact absurd h (by simp)
      | rel_load =>
        simp only [stepProc, hpc]
        apply lockInv_owner_moves i _ _ p (.rel_cas (c.locks i).state) hb hs rfl hothers
        · intro h
          rcases h with h | h | h <;> exact absurd h (by simp)
        · intro e h
          rw [hs] at h
          exact (PC.rel_cas.inj h).symm
      | rel_cas e =>
        have he : e = 1 := hexp e hpc
        subst he
        have hcas : cas_state c.locks i 1 (group_add 1 1) =
            (true, setSlot c.locks i { c.locks i with state := 0 }) := by
          simp [cas_state, cas, hs, group_add, UINT]
        simp only [stepProc, hpc, hcas]
        apply lockInv_free
        · simpa [setSlot] using hb
        · simp [setSlot]
        · exact owns_setPc_false _ _ _ rfl hothers
    · -- another process moves
      have hp := hothers p hpo
      have hcas : cas_state c.locks i 0 1 = (false, c.locks) := by
        simp [cas_state, cas, hs]
      have hop : o ≠ p := fun h => hpo h.symm
      cases hpc : c.pc p with
      | out =>
        simp only [stepProc, hpc, if_neg hb]
        apply lockInv_owned i _ _ o hb hs
        · rw [setPc_other _ _ _ _ hop]; exact ho
        · intro r hr
          by_cases hrp : r = p
          · rw [hrp, setPc_same]; rfl
          · rw [setPc_other _ _ _ _ hrp]; exact hothers r hr
        · rw [setPc_other _ _ _ _ hop]; exact hhold
        · rw [setPc_other _ _ _ _ hop]; exact hexp
      | acq_cas =>
        simp only [stepProc, hpc, hcas]
        exact lockInv_owned i _ _ o hb hs ho hothers hhold hexp
      | acq_holder => rw [hpc] at hp; exact absurd hp (by decide)
      | acq_time => rw [hpc] at hp; exact absurd hp (by decide)
      | crit => rw [hpc] at hp; exact absurd hp (by decide)
      | rel_check => rw [hpc] at hp; exact absurd hp (by decide)
      | rel_holder => rw [hpc] at hp; exact absurd hp (by decide)
      | rel_time => rw [hpc] at hp; exact absurd hp (by decide)
      | rel_load => rw [hpc] at hp; exact absurd hp (by decide)
      | rel_cas e => rw [hpc] at hp; exact absurd hp (by simp [owns])

/-- The lock invariant holds in every reachable configuration. -/
theorem lockInv_reachable (i : Nat) (t0 : LockTable) (hb : (t0 i).group_id ≠ -1)
    (h0 : (t0 i).state = 0) (c : Conf) (hr : Reachable i t0 c) : LockInv i c := by
  induction hr with
  | init => exact ⟨hb, Or.inl ⟨h0, fun _ => rfl⟩⟩
  | step c p ticks _ ih => exact lockInv_step i c p ticks ih

/-- A process that holds the lock owns it. -/
theorem owns_of_holds (x : PC) (h : holds x = true) : owns x = true := by
  cases x <;> first | rfl | exact absurd h (by decide)

/-- A process that does not own the lock is outside or spinning in acquire. -/
theorem out_or_spin_of_not_owns (x : PC) (h : owns x = false) : x = .out ∨ x = .acq_cas := by
  cases x with
  | out => exact Or.inl rfl
  | acq_cas => exact Or.inr rfl
  | acq_holder => exact absurd h (by decide)
  | acq_time => exact absurd h (by decide)
  | crit => exact absurd h (by decide)
  | rel_check => exact absurd h (by decide)
  | rel_holder => exact absurd h (by decide)
  | rel_time => exact absurd h (by decide)
  | rel_load => exact absurd h (by decide)
  | rel_cas e => exact absurd h (by simp [owns])

/-! ## Auxiliary lemmas: lock calls -/

theorem setSlot_setSlot (t : LockTable) (i : Nat) (a b : grouplock) :
    setSlot (setSlot t i a) i b = setSlot t i b := by
  funext j
  by_cases h : j = i
  · simp [setSlot, h]
  · simp [setSlot, h]

theorem id_in_range (id : Int) (h0 : 0 ≤ id) (h1 : id < 64) :
    ¬ (id < 0 ∨ id ≥ MAX_GROUPLOCKS) := by
  unfold MAX_GROUPLOCKS
  omega

/-- The slot loop of `grouplock_init` resets the slots it visits and no other. -/
theorem grouplock_init_loop_spec :
    ∀ n i t j, grouplock_init_loop n i t j =
      if i ≤ j ∧ j < i + n then
        { t j with group_id := -1, state := 0, holder_pid := -1, ref_count := 0,
                   acquire_time := 0 }
      else t j := by
  intro n
  induction n with
  | zero =>
    intro i t j
    have h : ¬ (i ≤ j ∧ j < i + 0) := by omega
    simp only [grouplock_init_loop, if_neg h]
  | succ n ih =>
    intro i t j
    simp only [grouplock_init_loop]
    rw [ih]
    by_cases hj : j = i
    · have h1 : ¬ (i + 1 ≤ j ∧ j < i + 1 + n) := by omega
      have h2 : i ≤ j ∧ j < i + (n + 1) := by omega
      rw [if_neg h1, if_pos h2, hj, setSlot_same]
    · by_cases h1 : i + 1 ≤ j ∧ j < i + 1 + n
      · have h2 : i ≤ j ∧ j < i + (n + 1) := by omega
        rw [if_pos h1, if_pos h2, setSlot_other _ _ _ _ hj]
      · have h2 : ¬ (i ≤ j ∧ j < i + (n + 1)) := by omega
        rw [if_neg h1, if_neg h2, setSlot_other _ _ _ _ hj]

/-- The function `grouplock_init` returns the table left by its slot loop. -/
theorem self_init (t : LockTable) : grouplock_init t = some (grouplock_init_loop 64 0 t) := by
  have h : ¬ (verify_group_properties ≠ 0) := by decide
  simp only [grouplock_init, if_neg h]

/-- After `grouplock_init` every slot of the table is unbound, unlocked and without
holder. -/
theorem grouplock_init_slots (t0 t : LockTable) (h : grouplock_init t0 = some t)
    (j : Nat) (hj : j < 64) :
    (t j).group_id = -1 ∧ (t j).state = 0 ∧ (t j).holder_pid = -1 := by
  have hv : ¬ (verify_group_properties ≠ 0) := by decide
  simp only [grouplock_init, if_neg hv, Option.some.injEq] at h
  have hin : 0 ≤ j ∧ j < 0 + 64 := by omega
  rw [← h, grouplock_init_loop_spec, if_pos hin]
  exact ⟨rfl, rfl, rfl⟩

/-- A successful `grouplock_create`, with the table it leaves. -/
theorem grouplock_create_fresh (t : LockTable) (id : Int) (name : Nat → Nat)
    (h0 : 0 ≤ id) (h1 : id < 64) (hun : (t id.toNat).group_id = -1) :
    grouplock_create t id name =
      (0, setSlot t id.toNat
        { state := 0, group_id := id, holder_pid := -1,
          name := setRef (name_copy_loop name 15 0 (t id.toNat).name).2
            (name_copy_loop name 15 0 (t id.toNat).name).1 0,
          ref_count := 1, acquire_time := 0 }) := by
  have hb : ¬ ((t id.toNat).group_id ≠ -1) := by simp [hun]
  simp only [grouplock_create, if_neg (id_in_range id h0 h1), if_neg hb]

/-- A call of `grouplock_acquire` on a free lock, with the table it leaves. -/
theorem grouplock_acquire_free (fuel : Nat) (t : LockTable) (pid : Int) (ticks : Nat)
    (id : Int) (h0 : 0 ≤ id) (h1 : id < 64) (hb : (t id.toNat).group_id ≠ -1)
    (hs : (t id.toNat).state = 0) :
    grouplock_acquire (fuel + 1) t pid ticks id =
      some (0, setSlot t id.toNat
        { t id.toNat with state := 1, holder_pid := pid, acquire_time := ticks }) := by
  simp only [grouplock_acquire, if_neg (id_in_range id h0 h1), if_neg hb,
    grouplock_acquire_spin, cas_state, cas, hs, if_true, setSlot_setSlot, setSlot_same]

/-- The spin loop of `grouplock_acquire` only returns from a free lock, and then with
the lock taken. -/
theorem grouplock_acquire_spin_some (pid : Int) (ticks : Nat) (i : Nat) :
    ∀ fuel t r, grouplock_acquire_spin pid ticks i fuel t = some r →
      (t i).state = 0 ∧
      r = (0, setSlot t i { t i with state := 1, holder_pid := pid, acquire_time := ticks }) := by
  intro fuel
  induction fuel with
  | zero =>
    intro t r h
    simp [grouplock_acquire_spin] at h
  | succ n ih =>
    intro t r h
    by_cases hs : (t i).state = 0
    · refine ⟨hs, ?_⟩
      simp only [grouplock_acquire_spin, cas_state, cas, hs, if_true, setSlot_setSlot,
        setSlot_same, Option.some.injEq] at h
      exact h.symm
    · have hcas : cas_state t i 0 1 = (false, t) := by
        simp [cas_state, cas, hs]
      simp only [grouplock_acquire_spin, hcas] at h
      exact absurd (ih t r h).1 hs

/-- A call of `grouplock_release` by the recorded holder, with the table it leaves. -/
theorem grouplock_release_holder (t : LockTable) (pid : Int) (id : Int)
    (h0 : 0 ≤ id) (h1 : id < 64) (hb : (t id.toNat).group_id ≠ -1)
    (hh : (t id.toNat).holder_pid = pid) :
    grouplock_release t pid id =
      (0, setSlot t id.toNat
        { t id.toNat with holder_pid := -1, acquire_time := 0,
                          state := group_add (t id.toNat).state 1 }) := by
  have hh2 : ¬ ((t id.toNat).holder_pid ≠ pid) := by simp [hh]
  simp only [grouplock_release, if_neg (id_in_range id h0 h1), if_neg hb, if_neg hh2,
    atomic_group_add, cas, if_true, setSlot_setSlot, setSlot_same]

/-- A call of `grouplock_destroy` on a bound, free lock, with the table it leaves. -/
theorem grouplock_destroy_free (t : LockTable) (id : Int)
    (h0 : 0 ≤ id) (h1 : id < 64) (hb : (t id.toNat).group_id ≠ -1)
    (hs : (t id.toNat).state = 0) :
    grouplock_destroy t id =
      (0, setSlot t id.toNat { t id.toNat with group_id := -1, ref_count := 0 }) := by
  have hs2 : ¬ ((t id.toNat).state ≠ 0) := by simp [hs]
  simp only [grouplock_destroy, if_neg (id_in_range id h0 h1), if_neg hb, if_neg hs2,
    setSlot_setSlot, setSlot_same]

/-- A successful create leaves the slot bound to `id`, unlocked and without holder. -/
theorem create_step (t : LockTable) (id : Int) (name : Nat → Nat)
    (h0 : 0 ≤ id) (h1 : id < 64) (hun : (t id.toNat).group_id = -1) :
    ∃ t1, grouplock_create t id name = (0, t1) ∧ (t1 id.toNat).group_id = id ∧
      (t1 id.toNat).state = 0 ∧ (t1 id.toNat).holder_pid = -1 :=
  ⟨_, grouplock_create_fresh t id name h0 h1 hun, by rw [setSlot_same], by rw [setSlot_same],
    by rw [setSlot_same]⟩

/-- An acquire of a free lock returns 0 and leaves it locked by the caller. -/
theorem acquire_step (fuel : Nat) (t : LockTable) (pid : Int) (ticks : Nat) (id : Int)
    (h0 : 0 ≤ id) (h1 : id < 64) (hb : (t id.toNat).group_id ≠ -1)
    (hs : (t id.toNat).state = 0) :
    ∃ t1, grouplock_acquire (fuel + 1) t pid ticks id = some (0, t1) ∧
      (t1 id.toNat).group_id = (t id.toNat).group_id ∧
      (t1 id.toNat).state = 1 ∧ (t1 id.toNat).holder_pid = pid :=
  ⟨_, grouplock_acquire_free fuel t pid ticks id h0 h1 hb hs, by rw [setSlot_same],
    by rw [setSlot_same], by rw [setSlot_same]⟩

/-- A release by the holder of a locked lock returns 0 and leaves it unlocked, without
holder. -/
theorem release_step (t : LockTable) (pid : Int) (id : Int)
    (h0 : 0 ≤ id) (h1 : id < 64) (hb : (t id.toNat).group_id ≠ -1)
    (hh : (t id.toNat).holder_pid = pid) (hs : (t id.toNat).state = 1) :
    ∃ t1, grouplock_release t pid id = (0, t1) ∧
      (t1 id.toNat).group_id = (t id.toNat).group_id ∧
      (t1 id.toNat).state = 0 ∧ (t1 id.toNat).holder_pid = -1 := by
  refine ⟨_, grouplock_release_holder t pid id h0 h1 hb hh, by rw [setSlot_same], ?_,
    by rw [setSlot_same]⟩
  rw [setSlot_same]
  show group_add (t id.toNat).state 1 = 0
  rw [hs]; decide

/-- A destroy of a bound, free lock returns 0 and leaves the slot unbound. -/
theorem destroy_step (t : LockTable) (id : Int)
    (h0 : 0 ≤ id) (h1 : id < 64) (hb : (t id.toNat).group_id ≠ -1)
    (hs : (t id.toNat).state = 0) :
    ∃ t1, grouplock_destroy t id = (0, t1) ∧ (t1 id.toNat).group_id = -1 ∧
      (t1 id.toNat).state = 0 ∧ (t1 id.toNat).holder_pid = (t id.toNat).holder_pid :=
  ⟨_, grouplock_destroy_free t id h0 h1 hb hs, by rw [setSlot_same], by rw [setSlot_same]; exact hs,
    by rw [setSlot_same]⟩

theorem tableOk_setSlot (t : LockTable) (i : Nat) (g : grouplock) (h : TableOk t)
    (hg : SlotOk g) : TableOk (setSlot t i g) := by
  intro j hj
  by_cases hji : j = i
  · rw [hji, setSlot_same]; exact hg
  · rw [setSlot_other _ _ _ _ hji]; exact h j hj

theorem tableOk_create (t : LockTable) (id : Int) (name : Nat → Nat) (h : TableOk t) :
    TableOk (grouplock_create t id name).2 := by
  by_cases hr : id < 0 ∨ id ≥ MAX_GROUPLOCKS
  · simp only [grouplock_create, if_pos hr]; exact h
  · by_cases hb : (t id.toNat).group_id ≠ -1
    · simp only [grouplock_create, if_neg hr, if_pos hb]; exact h
    · simp only [grouplock_create, if_neg hr, if_neg hb]
      exact tableOk_setSlot _ _ _ h (Or.inl ⟨rfl, rfl⟩)

theorem tableOk_acquire (fuel : Nat) (t : LockTable) (pid : Int) (ticks : Nat) (id : Int)
    (r : Int × LockTable) (hpid : pid ≠ -1) (h : TableOk t)
    (hres : grouplock_acquire fuel t pid ticks id = some r) : TableOk r.2 := by
  by_cases hr : id < 0 ∨ id ≥ MAX_GROUPLOCKS
  · simp only [grouplock_acquire, if_pos hr, Option.some.injEq] at hres
    rw [← hres]; exact h
  · by_cases hb : (t id.toNat).group_id = -1
    · simp only [grouplock_acquire, if_neg hr, if_pos hb, Option.some.injEq] at hres
      rw [← hres]; exact h
    · simp only [grouplock_acquire, if_neg hr, if_neg hb] at hres
      have := (grouplock_acquire_spin_some pid ticks id.toNat fuel t r hres).2
      rw [this]
      exact tableOk_setSlot _ _ _ h (Or.inr ⟨rfl, hpid⟩)

theorem tableOk_release (t : LockTable) (pid : Int) (id : Int) (hpid : pid ≠ -1)
    (h : TableOk t) : TableOk (grouplock_release t pid id).2 := by
  by_cases hr : id < 0 ∨ id ≥ MAX_GROUPLOCKS
  · simp only [grouplock_release, if_pos hr]; exact h
  · by_cases hb : (t id.toNat).group_id = -1
    · simp only [grouplock_release, if_neg hr, if_pos hb]; exact h
    · by_cases hh : (t id.toNat).holder_pid ≠ pid
      · simp only [grouplock_release, if_neg hr, if_neg hb, if_pos hh]; exact h
      · have hh2 : (t id.toNat).holder_pid = pid := by
          by_contra hne; exact hh hne
        have h0 : 0 ≤ id := by
          by_contra hneg; exact hr (Or.inl (by omega))
        have h1 : id < 64 := by
          by_contra hge; exact hr (Or.inr (by unfold MAX_GROUPLOCKS; omega))
        rw [grouplock_release_holder t pid id h0 h1 hb hh2]
        apply tableOk_setSlot _ _ _ h
        have hi : id.toNat < 64 := by omega
        rcases h id.toNat hi with ⟨_, hno⟩ | ⟨hs, _⟩
        · rw [hh2] at hno; exact absurd hno hpid
        · left
          refine ⟨?_, rfl⟩
          show group_add (t id.toNat).state 1 = 0
          rw [hs]; decide

theorem tableOk_destroy (t : LockTable) (id : Int) (h : TableOk t) :
    TableOk (grouplock_destroy t id).2 := by
  by_cases hr : id < 0 ∨ id ≥ MAX_GROUPLOCKS
  · simp only [grouplock_destroy, if_pos hr]; exact h
  · by_cases hb : (t id.toNat).group_id = -1
    · simp only [grouplock_destroy, if_neg hr, if_pos hb]; exact h
    · by_cases hs : (t id.toNat).state ≠ 0
      · simp only [grouplock_destroy, if_neg hr, if_neg hb, if_pos hs]; exact h
      · have hs2 : (t id.toNat).state = 0 := by
          by_contra hne; exact hs hne
        have h0 : 0 ≤ id := by
          by_contra hneg; exact hr (Or.inl (by omega))
        have h1 : id < 64 := by
          by_contra hge; exact hr (Or.inr (by unfold MAX_GROUPLOCKS; omega))
        rw [grouplock_destroy_free t id h0 h1 hb hs2]
        apply tableOk_setSlot _ _ _ h
        have hi : id.toNat < 64 := by omega
        rcases h id.toNat hi with ⟨_, hno⟩ | ⟨hs1, _⟩
        · exact Or.inl ⟨hs2, hno⟩
        · rw [hs2] at hs1; exact absurd hs1 (by decide)

/-- Every table reached from `grouplock_init` is consistent. -/
theorem tableOk_of_reach (t : LockTable) (hr : TableReach t) : TableOk t := by
  induction hr with
  | init t0 t h =>
    intro j hj
    have := grouplock_init_slots t0 t h j hj
    exact Or.inl ⟨this.2.1, this.2.2⟩
  | create t id name _ ih => exact tableOk_create t id name ih
  | acquire t pid ticks id fuel r hpid _ hres ih =>
    exact tableOk_acquire fuel t pid ticks id r hpid ih hres
  | release t pid id hpid _ ih => exact tableOk_release t pid id hpid ih
  | destroy t id _ ih => exact tableOk_destroy t id ih

/-! ## Auxiliary lemmas: reference counting -/

/-- The effect of `kfree` on a frame that keeps other sharers. -/
theorem kfree_shared (L : MemLayout) (s : Kmem) (f c : Nat)
    (halign : f % PGSIZE = 0) (hlo : L.kend ≤ f) (hhi : f < L.PHYSTOP)
    (hc : s.ref_counts (pfn L f) = c) (hc2 : 2 ≤ c) (hc32 : c < UINT) :
    kfree L s f = KResult.done { s with ref_counts := setRef s.ref_counts (pfn L f) (c - 1) } := by
  have hg : ¬ (f % PGSIZE ≠ 0 ∨ f < L.kend ∨ f ≥ L.PHYSTOP) := by omega
  have hd : dec32 c = c - 1 := by
    unfold dec32 UINT at *
    omega
  have hz : c - 1 > 0 := by omega
  simp only [kfree, if_neg hg, hc, hd, if_pos hz]

/-- The effect of `kfree` on a frame with a single owner. -/
theorem kfree_last (L : MemLayout) (s : Kmem) (f : Nat)
    (halign : f % PGSIZE = 0) (hlo : L.kend ≤ f) (hhi : f < L.PHYSTOP)
    (hc : s.ref_counts (pfn L f) = 1) :
    kfree L s f =
      KResult.done { freelist := f :: s.freelist, huge_freelist := s.huge_freelist,
                     ref_counts := setRef s.ref_counts (pfn L f) 0 } := by
  have hg : ¬ (f % PGSIZE ≠ 0 ∨ f < L.kend ∨ f ≥ L.PHYSTOP) := by omega
  have hz : ¬ (0 > 0) := by omega
  simp only [kfree, if_neg hg, hc, dec32_one, if_neg hz]

/-- After `n` calls of `inc_ref` on a frame with count `c`, without overflow of the
counter: the count is `c + n` and nothing else has changed. -/
theorem inc_ref_n_spec (L : MemLayout) (s : Kmem) (pa c : Nat)
    (hc : s.ref_counts (pfn L pa) = c) :
    ∀ n, c + n < UINT →
      (inc_ref_n L s pa n).ref_counts (pfn L pa) = c + n ∧
      (inc_ref_n L s pa n).freelist = s.freelist ∧
      (inc_ref_n L s pa n).huge_freelist = s.huge_freelist ∧
      ∀ j, j ≠ pfn L pa → (inc_ref_n L s pa n).ref_counts j = s.ref_counts j := by
  intro n
  induction n with
  | zero =>
    intro _
    exact ⟨hc, rfl, rfl, fun _ _ => rfl⟩
  | succ n ih =>
    intro hn
    obtain ⟨h1, h2, h3, h4⟩ := ih (by omega)
    refine ⟨?_, ?_, ?_, ?_⟩
    · simp only [inc_ref_n, inc_ref, setRef_same, h1]
      unfold inc32 UINT
      unfold UINT at hn
      omega
    · simp only [inc_ref_n, inc_ref]
      exact h2
    · simp only [inc_ref_n, inc_ref]
      exact h3
    · intro j hj
      simp only [inc_ref_n, inc_ref]
      rw [setRef_other _ _ _ _ hj]
      exact h4 j hj

/-- What `get_ref` returns after `k` calls of `inc_ref` on a frame with count 1: the
count `k + 1` read as a 32-bit `int`. -/
theorem get_ref_inc_ref_n (L : MemLayout) (s : Kmem) (f k : Nat)
    (hc : s.ref_counts (pfn L f) = 1) (hk : k + 1 < UINT) :
    get_ref L (inc_ref_n L s f k) f =
      if k + 1 < 2147483648 then ((k + 1 : Nat) : Int)
      else ((k + 1 : Nat) : Int) - 4294967296 := by
  have h := (inc_ref_n_spec L s f 1 hc k (by omega)).1
  have hmod : (1 + k) % UINT = k + 1 := by
    unfold UINT at *
    omega
  simp only [get_ref]
  rewrite [h, hmod]
  rfl

/-- The first `m` of the calls of `kfree` on a frame with count `c > m`: each lowers the
count by one and leaves the lists as they are. -/
theorem kfree_n_shared (L : MemLayout) (f c : Nat)
    (halign : f % PGSIZE = 0) (hlo : L.kend ≤ f) (hhi : f < L.PHYSTOP) (hc32 : c < UINT) :
    ∀ m s, s.ref_counts (pfn L f) = c → m < c →
      ∃ sm, kfree_n L s f m = KResult.done sm ∧
        sm.ref_counts (pfn L f) = c - m ∧ sm.freelist = s.freelist ∧
        sm.huge_freelist = s.huge_freelist ∧
        ∀ j, j ≠ pfn L f → sm.ref_counts j = s.ref_counts j := by
  intro m
  induction m with
  | zero =>
    intro s hc _
    exact ⟨s, rfl, hc, rfl, rfl, fun _ _ => rfl⟩
  | succ m ih =>
    intro s hc hm
    obtain ⟨sm, e, h1, h2, h3, h4⟩ := ih s hc (by omega)
    have hstep := kfree_shared L sm f (c - m) halign hlo hhi h1 (by omega) (by omega)
    refine ⟨{ sm with ref_counts := setRef sm.ref_counts (pfn L f) (c - m - 1) },
      ?_, ?_, ?_, ?_, ?_⟩
    · simp only [kfree_n, e]
      exact hstep
    · simp only [setRef_same]
      omega
    · exact h2
    · exact h3
    · intro j hj
      simp only [setRef_other _ _ _ _ hj]
      exact h4 j hj

/-! ## Auxiliary lemmas: `freerange` -/

theorem pfn_eq (L : MemLayout) (q : Nat) (h1 : L.KERNBASE ≤ q) (h2 : q < UINT64) :
    pfn L q = (q - L.KERNBASE) / 4096 := by
  unfold pfn PGSIZE
  unfold UINT64 at *
  omega

/-- The loop of `freerange` ends when no further page fits. -/
theorem freerange_loop_stop (L : MemLayout) (e fuel p : Nat) (s : Kmem)
    (h : ¬ (p + PGSIZE ≤ e)) : freerange_loop L e fuel p s = KResult.done s := by
  cases fuel with
  | zero => rfl
  | succ n => rewrite [freerange_loop, if_neg h]; rfl

/-- One iteration of the loop of `freerange` on a 2MB-aligned extent that fits. -/
theorem freerange_loop_huge (L : MemLayout) (e fuel p : Nat) (s : Kmem)
    (h1 : p + PGSIZE ≤ e) (h2 : p % PGSIZE_2M = 0 ∧ p + PGSIZE_2M ≤ e)
    (hlo : L.kend ≤ p) (he : e ≤ L.PHYSTOP) :
    freerange_loop L e (fuel + 1) p s =
      freerange_loop L e fuel (p + PGSIZE_2M)
        { freelist := s.freelist, huge_freelist := p :: s.huge_freelist,
          ref_counts := fun j =>
            if pfn L p ≤ j ∧ j < pfn L p + 512 then 0 else s.ref_counts j } := by
  have hhi : p < L.PHYSTOP := by
    have := h2.2
    unfold PGSIZE_2M at this
    omega
  have hstep := freerange_huge_step L s p h2.1 hlo hhi
  rewrite [freerange_loop, if_pos h1, if_pos h2, hstep]
  exact Eq.refl _

/-- One iteration of the loop of `freerange` on a single page. -/
theorem freerange_loop_small (L : MemLayout) (e fuel p : Nat) (s : Kmem)
    (h1 : p + PGSIZE ≤ e) (h2 : ¬ (p % PGSIZE_2M = 0 ∧ p + PGSIZE_2M ≤ e))
    (halign : p % PGSIZE = 0) (hlo : L.kend ≤ p) (he : e ≤ L.PHYSTOP) :
    freerange_loop L e (fuel + 1) p s =
      freerange_loop L e fuel (p + PGSIZE)
        { freelist := p :: s.freelist, huge_freelist := s.huge_freelist,
          ref_counts := setRef (setRef s.ref_counts (pfn L p) 1) (pfn L p) 0 } := by
  have hhi : p < L.PHYSTOP := by
    unfold PGSIZE at h1
    omega
  have hk := kfree_last L
    { freelist := s.freelist, huge_freelist := s.huge_freelist,
      ref_counts := setRef s.ref_counts (pfn L p) 1 } p halign hlo hhi (setRef_same _ _ _)
  rewrite [freerange_loop, if_pos h1, if_neg h2, hk]
  exact Eq.refl _

/-- What the loop of `freerange` adds, from position `p` on, to a state `s`: the small
frames of `[p, e)` once each to the small list, the extents of `[p, e)` once each to the
huge list, count 0 for every frame of `[p, e)`, and no other count touched. -/
theorem freerange_loop_spec (L : MemLayout) (e : Nat) (hKB : L.KERNBASE ≤ L.kend)
    (he : e ≤ L.PHYSTOP) (hP : L.PHYSTOP ≤ UINT64) :
    ∀ fuel p s, p % 4096 = 0 → L.kend ≤ p → e < p + fuel * 4096 →
      ∃ s1, freerange_loop L e fuel p s = KResult.done s1 ∧
        (∀ q, smallFrame p e q → s1.freelist.count q = s.freelist.count q + 1) ∧
        (∀ q, ¬ smallFrame p e q → s1.freelist.count q = s.freelist.count q) ∧
        (∀ E, hugeBase p e E → s1.huge_freelist.count E = s.huge_freelist.count E + 1) ∧
        (∀ E, ¬ hugeBase p e E → s1.huge_freelist.count E = s.huge_freelist.count E) ∧
        (∀ q, q % 4096 = 0 → p ≤ q → q + 4096 ≤ e → s1.ref_counts (pfn L q) = 0) ∧
        (∀ j, (∀ q, q % 4096 = 0 → p ≤ q → q + 4096 ≤ e → j ≠ pfn L q) →
          s1.ref_counts j = s.ref_counts j) := by
  have hP2 : L.PHYSTOP ≤ 18446744073709551616 := hP
  have hstopcase : ∀ fuel p s, ¬ (p + 4096 ≤ e) →
      ∃ s1, freerange_loop L e fuel p s = KResult.done s1 ∧
        (∀ q, smallFrame p e q → s1.freelist.count q = s.freelist.count q + 1) ∧
        (∀ q, ¬ smallFrame p e q → s1.freelist.count q = s.freelist.count q) ∧
        (∀ E, hugeBase p e E → s1.huge_freelist.count E = s.huge_freelist.count E + 1) ∧
        (∀ E, ¬ hugeBase p e E → s1.huge_freelist.count E = s.huge_freelist.count E) ∧
        (∀ q, q % 4096 = 0 → p ≤ q → q + 4096 ≤ e → s1.ref_counts (pfn L q) = 0) ∧
        (∀ j, (∀ q, q % 4096 = 0 → p ≤ q → q + 4096 ≤ e → j ≠ pfn L q) →
          s1.ref_counts j = s.ref_counts j) := by
    intro fuel p s hstop
    refine ⟨s, freerange_loop_stop L e fuel p s hstop, ?_, ?_, ?_, ?_, ?_, ?_⟩
    · intro q hq
      unfold smallFrame at hq
      omega
    · intro _ _; rfl
    · intro E hE
      unfold hugeBase at hE
      omega
    · intro _ _; rfl
    · intro q _ h2 h3
      omega
    · intro _ _; rfl
  intro fuel
  induction fuel with
  | zero =>
    intro p s _ _ hf
    exact hstopcase 0 p s (by omega)
  | succ fuel ih =>
    intro p s hp hlo hf
    by_cases h1 : p + 4096 ≤ e
    · by_cases h2 : p % 2097152 = 0 ∧ p + 2097152 ≤ e
      · -- a 2MB extent
        obtain ⟨s1, e1, a1, a2, b1, b2, c1, c2⟩ := ih (p + 2097152)
          { freelist := s.freelist, huge_freelist := p :: s.huge_freelist,
            ref_counts := fun j =>
              if pfn L p ≤ j ∧ j < pfn L p + 512 then 0 else s.ref_counts j }
          (by omega) (by omega) (by omega)
        refine ⟨s1, ?_, ?_, ?_, ?_, ?_, ?_, ?_⟩
        · rewrite [freerange_loop_huge L e fuel p s h1 h2 hlo he]
          exact e1
        · intro q hq
          have hq2 : smallFrame (p + 2097152) e q := by
            unfold smallFrame at *
            omega
          exact a1 q hq2
        · intro q hq
          have hq2 : ¬ smallFrame (p + 2097152) e q := by
            unfold smallFrame at *
            omega
          exact a2 q hq2
        · intro E hE
          by_cases hEp : E = p
          · have hn : ¬ hugeBase (p + 2097152) e E := by
              unfold hugeBase
              omega
            rw [b2 E hn]
            show List.count E (p :: s.huge_freelist) = _
            rw [List.count_cons, hEp]
            simp
          · have hy : hugeBase (p + 2097152) e E := by
              unfold hugeBase at *
              omega
            rw [b1 E hy]
            show List.count E (p :: s.huge_freelist) + 1 = _
            have hne : (p == E) = false := by simpa using fun h => hEp h.symm
            rw [List.count_cons, hne]
            simp
        · intro E hE
          have hEp : E ≠ p := by
            intro h
            apply hE
            unfold hugeBase
            omega
          have hn : ¬ hugeBase (p + 2097152) e E := by
            unfold hugeBase at *
            omega
          rw [b2 E hn]
          show List.count E (p :: s.huge_freelist) = _
          have hne : (p == E) = false := by simpa using fun h => hEp h.symm
          rw [List.count_cons, hne]
          simp
        · intro q hq1 hq2 hq3
          by_cases hq : p + 2097152 ≤ q
          · exact c1 q hq1 hq hq3
          · have hpq := pfn_eq L q (by omega) (by omega)
            have hpp := pfn_eq L p (by omega) (by omega)
            have hj : ∀ q', q' % 4096 = 0 → p + 2097152 ≤ q' → q' + 4096 ≤ e →
                pfn L q ≠ pfn L q' := by
              intro q' h1' h2' h3'
              rw [hpq, pfn_eq L q' (by omega) (by omega)]
              omega
            rw [c2 (pfn L q) hj]
            have hin : pfn L p ≤ pfn L q ∧ pfn L q < pfn L p + 512 := by
              rw [hpq, hpp]
              omega
            exact if_pos hin
        · intro j hj
          have hj2 : ∀ q', q' % 4096 = 0 → p + 2097152 ≤ q' → q' + 4096 ≤ e →
              j ≠ pfn L q' := fun q' a b c => hj q' a (by omega) c
          rw [c2 j hj2]
          have hpp := pfn_eq L p (by omega) (by omega)
          have hout : ¬ (pfn L p ≤ j ∧ j < pfn L p + 512) := by
            intro hin
            have hq := hj (p + 4096 * (j - pfn L p)) (by omega) (by omega) (by omega)
            apply hq
            rw [pfn_eq L (p + 4096 * (j - pfn L p)) (by omega) (by omega)]
            omega
          exact if_neg hout
      · -- a single page
        obtain ⟨s1, e1, a1, a2, b1, b2, c1, c2⟩ := ih (p + 4096)
          { freelist := p :: s.freelist, huge_freelist := s.huge_freelist,
            ref_counts := setRef (setRef s.ref_counts (pfn L p) 1) (pfn L p) 0 }
          (by omega) (by omega) (by omega)
        have hpp := pfn_eq L p (by omega) (by omega)
        refine ⟨s1, ?_, ?_, ?_, ?_, ?_, ?_, ?_⟩
        · rewrite [freerange_loop_small L e fuel p s h1 h2 hp hlo he]
          exact e1
        · intro q hq
          by_cases hqp : q = p
          · have hn : ¬ smallFrame (p + 4096) e q := by
              unfold smallFrame
              omega
            rw [a2 q hn]
            show List.count q (p :: s.freelist) = _
            rw [List.count_cons, hqp]
            simp
          · have hy : smallFrame (p + 4096) e q := by
              unfold smallFrame at *
              omega
            rw [a1 q hy]
            show List.count q (p :: s.freelist) + 1 = _
            have hne : (p == q) = false := by simpa using fun h => hqp h.symm
            rw [List.count_cons, hne]
            simp
        · intro q hq
          have hqp : q ≠ p := by
            intro h
            apply hq
            unfold smallFrame
            omega
          have hn : ¬ smallFrame (p + 4096) e q := by
            unfold smallFrame at *
            omega
          rw [a2 q hn]
          show List.count q (p :: s.freelist) = _
          have hne : (p == q) = false := by simpa using fun h => hqp h.symm
          rw [List.count_cons, hne]
          simp
        · intro E hE
          have hy : hugeBase (p + 4096) e E := by
            unfold hugeBase at *
            omega
          exact b1 E hy
        · intro E hE
          have hn : ¬ hugeBase (p + 4096) e E := by
            unfold hugeBase at *
            omega
          exact b2 E hn
        · intro q hq1 hq2 hq3
          by_cases hqp : q = p
          · have hj : ∀ q', q' % 4096 = 0 → p + 4096 ≤ q' → q' + 4096 ≤ e →
                pfn L q ≠ pfn L q' := by
              intro q' h1' h2' h3'
              rw [hqp, hpp, pfn_eq L q' (by omega) (by omega)]
              omega
            rw [c2 (pfn L q) hj, hqp]
            exact setRef_same _ _ _
          · exact c1 q hq1 (by omega) hq3
        · intro j hj
          have hj2 : ∀ q', q' % 4096 = 0 → p + 4096 ≤ q' → q' + 4096 ≤ e →
              j ≠ pfn L q' := fun q' a b c => hj q' a (by omega) c
          have hjp : j ≠ pfn L p := hj p hp (le_refl p) h1
          rw [c2 j hj2]
          show setRef (setRef s.ref_counts (pfn L p) 1) (pfn L p) 0 j = s.ref_counts j
          rw [setRef_other _ _ _ _ hjp, setRef_other _ _ _ _ hjp]
    · exact hstopcase (fuel + 1) p s h1

/-- In a list of 2MB-aligned bases, the extents that contain `q` are the occurrences of
the base of the 2MB block of `q`. -/
theorem countP_contains (q : Nat) :
    ∀ l : List Nat, (∀ E, E ∈ l → E % 2097152 = 0) →
      l.countP (fun E => decide (E ≤ q ∧ q < E + PGSIZE_2M)) =
        l.count (q / 2097152 * 2097152) := by
  intro l
  induction l with
  | nil => intro _; rfl
  | cons a l ih =>
    intro hal
    have ha : a % 2097152 = 0 := hal a (List.mem_cons_self a l)
    rw [List.countP_cons, List.count_cons, ih (fun E hE => hal E (List.mem_cons_of_mem a hE))]
    by_cases hc : a ≤ q ∧ q < a + PGSIZE_2M
    · have heq : a = q / 2097152 * 2097152 := by
        unfold PGSIZE_2M at hc
        omega
      have h1 : decide (a ≤ q ∧ q < a + PGSIZE_2M) = true := decide_eq_true hc
      have h2 : (a == q / 2097152 * 2097152) = true := by simpa using heq
      rw [h1, h2]
    · have hne : a ≠ q / 2097152 * 2097152 := by
        intro heq
        apply hc
        unfold PGSIZE_2M
        omega
      have h1 : decide (a ≤ q ∧ q < a + PGSIZE_2M) = false := decide_eq_false hc
      have h2 : (a == q / 2097152 * 2097152) = false := by simpa using hne
      rw [h1, h2]

/-! ## Auxiliary lemmas: further lock calls and `freemem_amount` -/

/-- A call of `grouplock_destroy` on a bound lock that is not in state 0. -/
theorem grouplock_destroy_busy (t : LockTable) (id : Int)
    (h0 : 0 ≤ id) (h1 : id < 64) (hb : (t id.toNat).group_id ≠ -1)
    (hs : (t id.toNat).state ≠ 0) : grouplock_destroy t id = (-3, t) := by
  simp only [grouplock_destroy, if_neg (id_in_range id h0 h1), if_neg hb, if_pos hs]

/-- A call of `grouplock_release` on a bound lock by a process that is not the recorded
holder. -/
theorem grouplock_release_not_holder (t : LockTable) (pid : Int) (id : Int)
    (h0 : 0 ≤ id) (h1 : id < 64) (hb : (t id.toNat).group_id ≠ -1)
    (hh : (t id.toNat).holder_pid ≠ pid) : grouplock_release t pid id = (-3, t) := by
  simp only [grouplock_release, if_neg (id_in_range id h0 h1), if_neg hb, if_pos hh]

/-- A call of `grouplock_acquire` with an id in range that returns 0 started from a bound
lock in state 0 and leaves it locked by the caller. -/
theorem grouplock_acquire_returned_zero (fuel : Nat) (t t1 : LockTable) (pid : Int)
    (ticks : Nat) (id : Int) (h0 : 0 ≤ id) (h1 : id < 64)
    (hacq : grouplock_acquire fuel t pid ticks id = some (0, t1)) :
    (t id.toNat).group_id ≠ -1 ∧ (t id.toNat).state = 0 ∧
    (t1 id.toNat).group_id = (t id.toNat).group_id ∧
    (t1 id.toNat).state = 1 ∧ (t1 id.toNat).holder_pid = pid := by
  have hr := id_in_range id h0 h1
  by_cases hb : (t id.toNat).group_id = -1
  · simp [grouplock_acquire, hr, hb] at hacq
  · simp only [grouplock_acquire, if_neg hr, if_neg hb] at hacq
    obtain ⟨hs, heq⟩ := grouplock_acquire_spin_some pid ticks id.toNat fuel t (0, t1) hacq
    have ht1 : t1 = setSlot t id.toNat
        { t id.toNat with state := 1, holder_pid := pid, acquire_time := ticks } :=
      (Prod.mk.inj heq).2
    refine ⟨hb, hs, ?_, ?_, ?_⟩ <;> rw [ht1, setSlot_same]

/-- A counting loop of `freemem_amount` that does not overflow its `uint64`. -/
theorem count_loop_spec (c : Nat) :
    ∀ (l : List Nat) (a : Nat), a + l.length * c < UINT64 →
      l.foldl (fun amount _ => (amount + c) % UINT64) a = a + l.length * c := by
  intro l
  induction l with
  | nil =>
    intro a _
    simp
  | cons x l ih =>
    intro a ha
    have hlen : (x :: l).length * c = l.length * c + c := by
      rw [List.length_cons, Nat.succ_mul]
    rw [hlen] at ha ⊢
    have hmod : (a + c) % UINT64 = a + c := Nat.mod_eq_of_lt (by omega)
    rw [List.foldl_cons, hmod, ih (a + c) (by omega)]
    omega

/-- The value of `freemem_amount` when the free memory fits the `uint64` accumulator. -/
theorem freemem_amount_eq (s : Kmem)
    (hfit : s.freelist.length * 4096 + s.huge_freelist.length * 2097152 < UINT64) :
    freemem_amount s = 4 * s.freelist.length + 2048 * s.huge_freelist.length := by
  have h1 := count_loop_spec 4096 s.freelist 0 (by omega)
  have h2 := count_loop_spec 2097152 s.huge_freelist (0 + s.freelist.length * 4096) (by omega)
  unfold freemem_amount
  show (List.foldl (fun amount _ => (amount + 2097152) % UINT64)
    (List.foldl (fun amount _ => (amount + 4096) % UINT64) 0 s.freelist) s.huge_freelist) / 1024
      = _
  rw [h1, h2]
  omega

/-! ## Theorems: `kalloc`, `kfree` -/

/-- C1. `kalloc` on a non-empty small list with head `f` returns `f`, leaves the tail
as the small list, sets the count of `f` to 1 and changes neither the huge list nor
any other count; on an empty small list it returns 0 and the state is unchanged. -/
theorem kalloc_spec (L : MemLayout) (s : Kmem) :
    (∀ f tl, s.freelist = f :: tl →
      (kalloc L s).1 = f ∧ (kalloc L s).2.freelist = tl ∧
      (kalloc L s).2.ref_counts (pfn L f) = 1 ∧
      (kalloc L s).2.huge_freelist = s.huge_freelist ∧
      ∀ j, j ≠ pfn L f → (kalloc L s).2.ref_counts j = s.ref_counts j) ∧
    (s.freelist = [] → kalloc L s = (0, s)) := by
  constructor
  · intro f tl h
    simp [kalloc, h, setRef]
    intro j hj
    simp [hj]
  · intro h
    simp [kalloc, h]

/-- Instance: `kalloc` at a state with two free frames, and at a state with none. -/
theorem kalloc_spec_witness :
    ((kalloc tinyLayout twoFree).1 = 0x87DFF000 ∧
      (kalloc tinyLayout twoFree).2.freelist = [0x87DFE000] ∧
      (kalloc tinyLayout twoFree).2.ref_counts (pfn tinyLayout 0x87DFF000) = 1 ∧
      (kalloc tinyLayout twoFree).2.huge_freelist = twoFree.huge_freelist ∧
      ∀ j, j ≠ pfn tinyLayout 0x87DFF000 →
        (kalloc tinyLayout twoFree).2.ref_counts j = twoFree.ref_counts j) ∧
    kalloc tinyLayout (constKmem 0) = (0, constKmem 0) :=
  ⟨(kalloc_spec tinyLayout twoFree).1 0x87DFF000 [0x87DFE000] rfl,
   (kalloc_spec tinyLayout (constKmem 0)).2 rfl⟩

/-- C2. `kfree` of an aligned, in-range frame whose count is `c ≥ 1` (a `uint`) returns
normally with the count at `c - 1`; the small list is unchanged when `c - 1 > 0` and
gets the frame as new head when `c - 1 = 0`; the huge list and all other counts are
unchanged. -/
theorem kfree_spec (L : MemLayout) (s : Kmem) (f c : Nat)
    (halign : f % PGSIZE = 0) (hlo : L.kend ≤ f) (hhi : f < L.PHYSTOP)
    (hc : s.ref_counts (pfn L f) = c) (hc1 : 1 ≤ c) (hc32 : c < UINT) :
    ∃ s1, kfree L s f = KResult.done s1 ∧
      s1.ref_counts (pfn L f) = c - 1 ∧
      (c - 1 > 0 → s1.freelist = s.freelist) ∧
      (c - 1 = 0 → s1.freelist = f :: s.freelist) ∧
      s1.huge_freelist = s.huge_freelist ∧
      ∀ j, j ≠ pfn L f → s1.ref_counts j = s.ref_counts j := by
  have hd : dec32 c = c - 1 := by
    unfold dec32 UINT at *
    omega
  have hg : ¬ (f % PGSIZE ≠ 0 ∨ f < L.kend ∨ f ≥ L.PHYSTOP) := by
    omega
  by_cases hz : c - 1 > 0
  · refine ⟨{ s with ref_counts := setRef s.ref_counts (pfn L f) (c - 1) }, ?_, ?_, ?_, ?_, ?_, ?_⟩
    · simp only [kfree, if_neg hg, hc, hd, if_pos hz]
    · simp [setRef]
    · intro _; rfl
    · intro h0; omega
    · rfl
    · intro j hj; simp [setRef, hj]
  · refine ⟨{ freelist := f :: s.freelist, huge_freelist := s.huge_freelist,
              ref_counts := setRef s.ref_counts (pfn L f) (c - 1) }, ?_, ?_, ?_, ?_, ?_, ?_⟩
    · simp only [kfree, if_neg hg, hc, hd, if_neg hz]
    · simp [setRef]
    · intro h; exact absurd h hz
    · intro _; rfl
    · rfl
    · intro j hj; simp [setRef, hj]

/-- Instance: `kfree` of the last frame below `PHYSTOP` with count 2. -/
theorem kfree_spec_witness :
    ∃ s1, kfree tinyLayout (constKmem 2) 0x87FFF000 = KResult.done s1 ∧
      s1.ref_counts (pfn tinyLayout 0x87FFF000) = 2 - 1 ∧
      (2 - 1 > 0 → s1.freelist = (constKmem 2).freelist) ∧
      (2 - 1 = 0 → s1.freelist = 0x87FFF000 :: (constKmem 2).freelist) ∧
      s1.huge_freelist = (constKmem 2).huge_freelist ∧
      ∀ j, j ≠ pfn tinyLayout 0x87FFF000 → s1.ref_counts j = (constKmem 2).ref_counts j :=
  kfree_spec tinyLayout (constKmem 2) 0x87FFF000 2 (by decide) (by decide) (by decide)
    rfl (by decide) (by decide)

/-! ## Theorems: the group-lock operations, one call at a time -/

/-- C3. `grouplock_acquire`: -1 for an id outside [0,64) and -2 for an unbound slot,
table unchanged; on a bound slot in state 0 it returns 0 with state 1, the caller as
holder and the current tick count as acquisition time, every other slot unchanged; on
a bound slot in state 1 the compare-and-swap fails, leaves the table as it is, and the
call has not returned after any number of attempts. -/
theorem grouplock_acquire_spec (t : LockTable) (pid : Int) (ticks : Nat) (id : Int) :
    ((id < 0 ∨ id ≥ 64) → ∀ fuel, grouplock_acquire fuel t pid ticks id = some (-1, t)) ∧
    (0 ≤ id → id < 64 → (t id.toNat).group_id = -1 →
      ∀ fuel, grouplock_acquire fuel t pid ticks id = some (-2, t)) ∧
    (0 ≤ id → id < 64 → (t id.toNat).group_id ≠ -1 → (t id.toNat).state = 0 →
      ∀ fuel, ∃ t1, grouplock_acquire (fuel + 1) t pid ticks id = some (0, t1) ∧
        (t1 id.toNat).state = 1 ∧ (t1 id.toNat).holder_pid = pid ∧
        (t1 id.toNat).acquire_time = ticks ∧
        (t1 id.toNat).group_id = (t id.toNat).group_id ∧
        (t1 id.toNat).name = (t id.toNat).name ∧
        (t1 id.toNat).ref_count = (t id.toNat).ref_count ∧
        ∀ j, j ≠ id.toNat → t1 j = t j) ∧
    (0 ≤ id → id < 64 → (t id.toNat).group_id ≠ -1 → (t id.toNat).state = 1 →
      cas_state t id.toNat 0 1 = (false, t) ∧
      ∀ fuel, grouplock_acquire fuel t pid ticks id = none) := by
  refine ⟨?_, ?_, ?_, ?_⟩
  · intro h fuel
    have : id < 0 ∨ id ≥ MAX_GROUPLOCKS := by simpa [MAX_GROUPLOCKS] using h
    simp [grouplock_acquire, this]
  · intro h0 h1 hb fuel
    have : ¬ (id < 0 ∨ id ≥ MAX_GROUPLOCKS) := by simp [MAX_GROUPLOCKS]; omega
    simp [grouplock_acquire, this, hb]
  · intro h0 h1 hb hs fuel
    have : ¬ (id < 0 ∨ id ≥ MAX_GROUPLOCKS) := by simp [MAX_GROUPLOCKS]; omega
    refine ⟨setSlot (setSlot (setSlot t id.toNat { t id.toNat with state := 1 }) id.toNat
        { setSlot t id.toNat { t id.toNat with state := 1 } id.toNat with holder_pid := pid })
        id.toNat
        { setSlot (setSlot t id.toNat { t id.toNat with state := 1 }) id.toNat
            { setSlot t id.toNat { t id.toNat with state := 1 } id.toNat with
              holder_pid := pid } id.toNat with acquire_time := ticks }, ?_, ?_⟩
    · simp only [grouplock_acquire, if_neg this, if_neg hb, grouplock_acquire_spin,
        cas_state, cas, hs, if_true]
    · refine ⟨?_, ?_, ?_, ?_, ?_, ?_, ?_⟩ <;> simp [setSlot]
      intro j hj
      simp [hj]
  · intro h0 h1 hb hs
    have hr : ¬ (id < 0 ∨ id ≥ MAX_GROUPLOCKS) := by simp [MAX_GROUPLOCKS]; omega
    have hcas : cas_state t id.toNat 0 1 = (false, t) := by
      simp [cas_state, cas, hs]
    refine ⟨hcas, ?_⟩
    intro fuel
    simp only [grouplock_acquire, if_neg hr, if_neg hb]
    induction fuel with
    | zero => rfl
    | succ n ih => simp only [grouplock_acquire_spin, hcas]; exact ih

/-- Instance: acquire at an invalid id, an unbound slot, a free lock and a held lock. -/
theorem grouplock_acquire_spec_witness :
    grouplock_acquire 5 emptyTable 7 100 (-1) = some (-1, emptyTable) ∧
    grouplock_acquire 5 emptyTable 7 100 1 = some (-2, emptyTable) ∧
    (∃ t1, grouplock_acquire (0 + 1) (oneLock (mkLock 0 1 (-1))) 7 100 1 = some (0, t1) ∧
        (t1 (1 : Int).toNat).state = 1 ∧ (t1 (1 : Int).toNat).holder_pid = 7 ∧
        (t1 (1 : Int).toNat).acquire_time = 100 ∧
        (t1 (1 : Int).toNat).group_id = (oneLock (mkLock 0 1 (-1)) (1 : Int).toNat).group_id ∧
        (t1 (1 : Int).toNat).name = (oneLock (mkLock 0 1 (-1)) (1 : Int).toNat).name ∧
        (t1 (1 : Int).toNat).ref_count =
          (oneLock (mkLock 0 1 (-1)) (1 : Int).toNat).ref_count ∧
        ∀ j, j ≠ (1 : Int).toNat → t1 j = oneLock (mkLock 0 1 (-1)) j) ∧
    (cas_state (oneLock (mkLock 1 1 3)) (1 : Int).toNat 0 1 = (false, oneLock (mkLock 1 1 3)) ∧
      ∀ fuel, grouplock_acquire fuel (oneLock (mkLock 1 1 3)) 7 100 1 = none) :=
  ⟨(grouplock_acquire_spec emptyTable 7 100 (-1)).1 (Or.inl (by decide)) 5,
   (grouplock_acquire_spec emptyTable 7 100 1).2.1 (by decide) (by decide) rfl 5,
   (grouplock_acquire_spec (oneLock (mkLock 0 1 (-1))) 7 100 1).2.2.1 (by decide) (by decide)
      (by decide) rfl 0,
   (grouplock_acquire_spec (oneLock (mkLock 1 1 3)) 7 100 1).2.2.2 (by decide) (by decide)
      (by decide) rfl⟩

/-- C4. `grouplock_release`: -1 for an id outside [0,64), else -2 for an unbound slot,
else -3 when the recorded holder is not the caller, the table unchanged in the three
cases; else 0, with holder -1, acquisition time 0, state `group_add old 1`, and every
other slot unchanged. -/
theorem grouplock_release_spec (t : LockTable) (pid : Int) (id : Int) :
    ((id < 0 ∨ id ≥ 64) → grouplock_release t pid id = (-1, t)) ∧
    (0 ≤ id → id < 64 → (t id.toNat).group_id = -1 → grouplock_release t pid id = (-2, t)) ∧
    (0 ≤ id → id < 64 → (t id.toNat).group_id ≠ -1 → (t id.toNat).holder_pid ≠ pid →
      grouplock_release t pid id = (-3, t)) ∧
    (0 ≤ id → id < 64 → (t id.toNat).group_id ≠ -1 → (t id.toNat).holder_pid = pid →
      (grouplock_release t pid id).1 = 0 ∧
      ((grouplock_release t pid id).2 id.toNat).holder_pid = -1 ∧
      ((grouplock_release t pid id).2 id.toNat).acquire_time = 0 ∧
      ((grouplock_release t pid id).2 id.toNat).state = group_add (t id.toNat).state 1 ∧
      ((grouplock_release t pid id).2 id.toNat).group_id = (t id.toNat).group_id ∧
      ((grouplock_release t pid id).2 id.toNat).name = (t id.toNat).name ∧
      ((grouplock_release t pid id).2 id.toNat).ref_count = (t id.toNat).ref_count ∧
      ∀ j, j ≠ id.toNat → (grouplock_release t pid id).2 j = t j) := by
  refine ⟨?_, ?_, ?_, ?_⟩
  · intro h
    have : id < 0 ∨ id ≥ MAX_GROUPLOCKS := by simpa [MAX_GROUPLOCKS] using h
    simp [grouplock_release, this]
  · intro h0 h1 hb
    have : ¬ (id < 0 ∨ id ≥ MAX_GROUPLOCKS) := by simp [MAX_GROUPLOCKS]; omega
    simp [grouplock_release, this, hb]
  · intro h0 h1 hb hh
    have : ¬ (id < 0 ∨ id ≥ MAX_GROUPLOCKS) := by simp [MAX_GROUPLOCKS]; omega
    simp [grouplock_release, this, hb, hh]
  · intro h0 h1 hb hh
    have hr : ¬ (id < 0 ∨ id ≥ MAX_GROUPLOCKS) := by simp [MAX_GROUPLOCKS]; omega
    have hh2 : ¬ ((t id.toNat).holder_pid ≠ pid) := by simp [hh]
    simp only [grouplock_release, if_neg hr, if_neg hb, if_neg hh2]
    refine ⟨?_, ?_, ?_, ?_, ?_, ?_, ?_, ?_⟩ <;>
      simp [atomic_group_add, cas, setSlot]
    intro j hj
    simp [hj]

/-- Instance: release at an invalid id, an unbound slot, a foreign holder and the holder. -/
theorem grouplock_release_spec_witness :
    grouplock_release emptyTable 7 64 = (-1, emptyTable) ∧
    grouplock_release emptyTable 7 1 = (-2, emptyTable) ∧
    grouplock_release (oneLock (mkLock 1 1 3)) 7 1 = (-3, oneLock (mkLock 1 1 3)) ∧
    ((grouplock_release (oneLock (mkLock 1 1 7)) 7 1).1 = 0 ∧
      ((grouplock_release (oneLock (mkLock 1 1 7)) 7 1).2 (1 : Int).toNat).holder_pid = -1 ∧
      ((grouplock_release (oneLock (mkLock 1 1 7)) 7 1).2 (1 : Int).toNat).acquire_time = 0 ∧
      ((grouplock_release (oneLock (mkLock 1 1 7)) 7 1).2 (1 : Int).toNat).state =
        group_add (oneLock (mkLock 1 1 7) (1 : Int).toNat).state 1 ∧
      ((grouplock_release (oneLock (mkLock 1 1 7)) 7 1).2 (1 : Int).toNat).group_id =
        (oneLock (mkLock 1 1 7) (1 : Int).toNat).group_id ∧
      ((grouplock_release (oneLock (mkLock 1 1 7)) 7 1).2 (1 : Int).toNat).name =
        (oneLock (mkLock 1 1 7) (1 : Int).toNat).name ∧
      ((grouplock_release (oneLock (mkLock 1 1 7)) 7 1).2 (1 : Int).toNat).ref_count =
        (oneLock (mkLock 1 1 7) (1 : Int).toNat).ref_count ∧
      ∀ j, j ≠ (1 : Int).toNat →
        (grouplock_release (oneLock (mkLock 1 1 7)) 7 1).2 j = oneLock (mkLock 1 1 7) j) :=
  ⟨(grouplock_release_spec emptyTable 7 64).1 (Or.inr (by decide)),
   (grouplock_release_spec emptyTable 7 1).2.1 (by decide) (by decide) rfl,
   (grouplock_release_spec (oneLock (mkLock 1 1 3)) 7 1).2.2.1 (by decide) (by decide)
      (by decide) (by decide),
   (grouplock_release_spec (oneLock (mkLock 1 1 7)) 7 1).2.2.2 (by decide) (by decide)
      (by decide) rfl⟩

/-- C5. `grouplock_create` with a NUL-terminated name of length `len`: -1 exactly for an
id outside [0,64); for an id in range, -2 exactly when the slot is bound; the table is
unchanged in both cases; otherwise 0, and the slot is bound to `id` with state 0, holder
-1, reference count 1, acquisition time 0 and a name made of the first `min 15 len` bytes
of `name` and a terminator, nothing being written past the 16 bytes of the field; every
other slot is unchanged. -/
theorem grouplock_create_spec (t : LockTable) (id : Int) (name : Nat → Nat) (len : Nat)
    (hnul : name len = 0) (hnz : ∀ k, k < len → name k ≠ 0) :
    ((grouplock_create t id name).1 = -1 ↔ (id < 0 ∨ id ≥ 64)) ∧
    (0 ≤ id → id < 64 →
      ((grouplock_create t id name).1 = -2 ↔ (t id.toNat).group_id ≠ -1)) ∧
    ((grouplock_create t id name).1 = -1 ∨ (grouplock_create t id name).1 = -2 →
      (grouplock_create t id name).2 = t) ∧
    (0 ≤ id → id < 64 → (t id.toNat).group_id = -1 →
      (grouplock_create t id name).1 = 0 ∧
      ((grouplock_create t id name).2 id.toNat).group_id = id ∧
      ((grouplock_create t id name).2 id.toNat).state = 0 ∧
      ((grouplock_create t id name).2 id.toNat).holder_pid = -1 ∧
      ((grouplock_create t id name).2 id.toNat).ref_count = 1 ∧
      ((grouplock_create t id name).2 id.toNat).acquire_time = 0 ∧
      (∀ k, k < min 15 len → ((grouplock_create t id name).2 id.toNat).name k = name k) ∧
      ((grouplock_create t id name).2 id.toNat).name (min 15 len) = 0 ∧
      (∀ k, 16 ≤ k → ((grouplock_create t id name).2 id.toNat).name k = (t id.toNat).name k) ∧
      ∀ j, j ≠ id.toNat → (grouplock_create t id name).2 j = t j) := by
  have hloop := name_copy_loop_spec name len hnul hnz 15 0 (t id.toNat).name
    (Nat.zero_le _) (by rw [Nat.zero_add]; exact min_le_left _ _)
  have hm : min 15 len ≤ 15 := min_le_left _ _
  by_cases hr : id < 0 ∨ id ≥ MAX_GROUPLOCKS
  · have hr2 : id < 0 ∨ id ≥ 64 := by simpa [MAX_GROUPLOCKS] using hr
    have hres : grouplock_create t id name = (-1, t) := by simp [grouplock_create, hr]
    rw [hres]
    refine ⟨by simp [hr2], ?_, by simp, ?_⟩
    · intro h0 h1; omega
    · intro h0 h1; omega
  · have hr2 : ¬ (id < 0 ∨ id ≥ 64) := by simpa [MAX_GROUPLOCKS] using hr
    by_cases hb : (t id.toNat).group_id ≠ -1
    · have hres : grouplock_create t id name = (-2, t) := by
        simp only [grouplock_create, if_neg hr, if_pos hb]
      rw [hres]
      refine ⟨?_, ?_, by simp, ?_⟩
      · constructor
        · intro h; exact absurd h (by simp)
        · intro h; exact absurd h hr2
      · intro _ _; simp [hb]
      · intro _ _ h; exact absurd h hb
    · have hb2 : (t id.toNat).group_id = -1 := by
        by_contra h; exact hb h
      have hres : grouplock_create t id name =
          (0, setSlot t id.toNat
            { state := 0, group_id := id, holder_pid := -1,
              name := setRef (name_copy_loop name 15 0 (t id.toNat).name).2
                (name_copy_loop name 15 0 (t id.toNat).name).1 0,
              ref_count := 1, acquire_time := 0 }) := by
        simp only [grouplock_create, if_neg hr, if_neg hb]
      rw [hres]
      refine ⟨?_, ?_, ?_, ?_⟩
      · constructor
        · intro h; exact absurd h (by simp)
        · intro h; exact absurd h hr2
      · intro _ _
        constructor
        · intro h; exact absurd h (by simp)
        · intro h; exact absurd hb2 h
      · intro h
        rcases h with h | h <;> exact absurd h (by simp)
      · intro _ _ _
        simp only [setSlot_same]
        refine ⟨trivial, trivial, trivial, trivial, trivial, trivial, ?_, ?_, ?_, ?_⟩
        · intro k hk
          rw [hloop.1, setRef_other _ _ _ _ (Nat.ne_of_lt hk), hloop.2 k,
            if_pos ⟨Nat.zero_le _, hk⟩]
        · rw [hloop.1, setRef_same]
        · intro k hk
          have hne : k ≠ min 15 len := by omega
          have hnot : ¬ (0 ≤ k ∧ k < min 15 len) := by omega
          rw [hloop.1, setRef_other _ _ _ _ hne, hloop.2 k, if_neg hnot]
        · intro j hj
          exact setSlot_other _ _ _ _ hj

/-- Instance: create for the name "ab" on a free slot, with an invalid id and on a
bound slot. -/
theorem grouplock_create_spec_witness :
    ((grouplock_create emptyTable 1 nameAb).1 = -1 ↔ ((1 : Int) < 0 ∨ (1 : Int) ≥ 64)) ∧
    ((grouplock_create (oneLock (mkLock 0 1 (-1))) 1 nameAb).1 = -2 ↔
      (oneLock (mkLock 0 1 (-1)) (1 : Int).toNat).group_id ≠ -1) ∧
    ((grouplock_create emptyTable 1 nameAb).1 = 0 ∧
      ((grouplock_create emptyTable 1 nameAb).2 (1 : Int).toNat).group_id = 1 ∧
      ((grouplock_create emptyTable 1 nameAb).2 (1 : Int).toNat).state = 0 ∧
      ((grouplock_create emptyTable 1 nameAb).2 (1 : Int).toNat).holder_pid = -1 ∧
      ((grouplock_create emptyTable 1 nameAb).2 (1 : Int).toNat).ref_count = 1 ∧
      ((grouplock_create emptyTable 1 nameAb).2 (1 : Int).toNat).acquire_time = 0 ∧
      (∀ k, k < min 15 2 →
        ((grouplock_create emptyTable 1 nameAb).2 (1 : Int).toNat).name k = nameAb k) ∧
      ((grouplock_create emptyTable 1 nameAb).2 (1 : Int).toNat).name (min 15 2) = 0 ∧
      (∀ k, 16 ≤ k → ((grouplock_create emptyTable 1 nameAb).2 (1 : Int).toNat).name k =
        (emptyTable (1 : Int).toNat).name k) ∧
      ∀ j, j ≠ (1 : Int).toNat → (grouplock_create emptyTable 1 nameAb).2 j = emptyTable j) :=
  ⟨(grouplock_create_spec emptyTable 1 nameAb 2 rfl (by decide)).1,
   (grouplock_create_spec (oneLock (mkLock 0 1 (-1))) 1 nameAb 2 rfl (by decide)).2.1
      (by decide) (by decide),
   (grouplock_create_spec emptyTable 1 nameAb 2 rfl (by decide)).2.2.2
      (by decide) (by decide) rfl⟩

/-- C6. `grouplock_destroy`: -1 exactly for an id outside [0,64); for an id in range, -2
exactly when the slot is unbound; for a bound slot, -3 exactly when its state is not 0;
the table is unchanged in the three cases; otherwise 0, the slot has id -1 and reference
count 0, its other fields and every other slot being unchanged. -/
theorem grouplock_destroy_spec (t : LockTable) (id : Int) :
    ((grouplock_destroy t id).1 = -1 ↔ (id < 0 ∨ id ≥ 64)) ∧
    (0 ≤ id → id < 64 → ((grouplock_destroy t id).1 = -2 ↔ (t id.toNat).group_id = -1)) ∧
    (0 ≤ id → id < 64 → (t id.toNat).group_id ≠ -1 →
      ((grouplock_destroy t id).1 = -3 ↔ (t id.toNat).state ≠ 0)) ∧
    ((grouplock_destroy t id).1 = -1 ∨ (grouplock_destroy t id).1 = -2 ∨
      (grouplock_destroy t id).1 = -3 → (grouplock_destroy t id).2 = t) ∧
    (0 ≤ id → id < 64 → (t id.toNat).group_id ≠ -1 → (t id.toNat).state = 0 →
      (grouplock_destroy t id).1 = 0 ∧
      ((grouplock_destroy t id).2 id.toNat).group_id = -1 ∧
      ((grouplock_destroy t id).2 id.toNat).ref_count = 0 ∧
      ((grouplock_destroy t id).2 id.toNat).state = (t id.toNat).state ∧
      ((grouplock_destroy t id).2 id.toNat).holder_pid = (t id.toNat).holder_pid ∧
      ((grouplock_destroy t id).2 id.toNat).name = (t id.toNat).name ∧
      ((grouplock_destroy t id).2 id.toNat).acquire_time = (t id.toNat).acquire_time ∧
      ∀ j, j ≠ id.toNat → (grouplock_destroy t id).2 j = t j) := by
  by_cases hr : id < 0 ∨ id ≥ MAX_GROUPLOCKS
  · have hr2 : id < 0 ∨ id ≥ 64 := by simpa [MAX_GROUPLOCKS] using hr
    have hres : grouplock_destroy t id = (-1, t) := by simp [grouplock_destroy, hr]
    rw [hres]
    refine ⟨by simp [hr2], ?_, ?_, by simp, ?_⟩
    · intro h0 h1; omega
    · intro h0 h1; omega
    · intro h0 h1; omega
  · have hr2 : ¬ (id < 0 ∨ id ≥ 64) := by simpa [MAX_GROUPLOCKS] using hr
    by_cases hb : (t id.toNat).group_id = -1
    · have hres : grouplock_destroy t id = (-2, t) := by
        simp only [grouplock_destroy, if_neg hr, if_pos hb]
      rw [hres]
      refine ⟨?_, ?_, ?_, by simp, ?_⟩
      · constructor
        · intro h; exact absurd h (by simp)
        · intro h; exact absurd h hr2
      · intro _ _; simp [hb]
      · intro _ _ h; exact absurd hb h
      · intro _ _ h; exact absurd hb h
    · by_cases hs : (t id.toNat).state ≠ 0
      · have hres : grouplock_destroy t id = (-3, t) := by
          simp only [grouplock_destroy, if_neg hr, if_neg hb, if_pos hs]
        rw [hres]
        refine ⟨?_, ?_, ?_, by simp, ?_⟩
        · constructor
          · intro h; exact absurd h (by simp)
          · intro h; exact absurd h hr2
        · intro _ _
          constructor
          · intro h; exact absurd h (by simp)
          · intro h; exact absurd h hb
        · intro _ _ _; simp [hs]
        · intro _ _ _ h; exact absurd h hs
      · have hs2 : (t id.toNat).state = 0 := by
          by_contra h; exact hs h
        simp only [grouplock_destroy, if_neg hr, if_neg hb, if_neg hs]
        refine ⟨?_, ?_, ?_, ?_, ?_⟩
        · constructor
          · intro h; exact absurd h (by simp)
          · intro h; exact absurd h hr2
        · intro _ _
          constructor
          · intro h; exact absurd h (by simp)
          · intro h; exact absurd h hb
        · intro _ _ _
          constructor
          · intro h; exact absurd h (by simp)
          · intro h; exact absurd hs2 h
        · intro h
          rcases h with h | h | h <;> exact absurd h (by simp)
        · intro _ _ _ _
          refine ⟨trivial, ?_, ?_, ?_, ?_, ?_, ?_, ?_⟩ <;> simp [setSlot]
          intro j hj
          simp [hj]

/-- Instance: destroy on a free lock, a held lock, an unbound slot and an invalid id. -/
theorem grouplock_destroy_spec_witness :
    ((grouplock_destroy emptyTable 64).1 = -1 ↔ ((64 : Int) < 0 ∨ (64 : Int) ≥ 64)) ∧
    ((grouplock_destroy emptyTable 1).1 = -2 ↔ (emptyTable (1 : Int).toNat).group_id = -1) ∧
    ((grouplock_destroy (oneLock (mkLock 1 1 7)) 1).1 = -3 ↔
      (oneLock (mkLock 1 1 7) (1 : Int).toNat).state ≠ 0) ∧
    ((grouplock_destroy (oneLock (mkLock 0 1 (-1))) 1).1 = 0 ∧
      ((grouplock_destroy (oneLock (mkLock 0 1 (-1))) 1).2 (1 : Int).toNat).group_id = -1 ∧
      ((grouplock_destroy (oneLock (mkLock 0 1 (-1))) 1).2 (1 : Int).toNat).ref_count = 0 ∧
      ((grouplock_destroy (oneLock (mkLock 0 1 (-1))) 1).2 (1 : Int).toNat).state =
        (oneLock (mkLock 0 1 (-1)) (1 : Int).toNat).state ∧
      ((grouplock_destroy (oneLock (mkLock 0 1 (-1))) 1).2 (1 : Int).toNat).holder_pid =
        (oneLock (mkLock 0 1 (-1)) (1 : Int).toNat).holder_pid ∧
      ((grouplock_destroy (oneLock (mkLock 0 1 (-1))) 1).2 (1 : Int).toNat).name =
        (oneLock (mkLock 0 1 (-1)) (1 : Int).toNat).name ∧
      ((grouplock_destroy (oneLock (mkLock 0 1 (-1))) 1).2 (1 : Int).toNat).acquire_time =
        (oneLock (mkLock 0 1 (-1)) (1 : Int).toNat).acquire_time ∧
      ∀ j, j ≠ (1 : Int).toNat →
        (grouplock_destroy (oneLock (mkLock 0 1 (-1))) 1).2 j = oneLock (mkLock 0 1 (-1)) j) :=
  ⟨(grouplock_destroy_spec emptyTable 64).1,
   (grouplock_destroy_spec emptyTable 1).2.1 (by decide) (by decide),
   (grouplock_destroy_spec (oneLock (mkLock 1 1 7)) 1).2.2.1 (by decide) (by decide)
      (by decide),
   (grouplock_destroy_spec (oneLock (mkLock 0 1 (-1))) 1).2.2.2.2 (by decide) (by decide)
      (by decide) rfl⟩

/-! ## Theorems: `kfree_huge`, `kalloc_huge` -/

/-- C9. `kfree_huge` of an aligned, in-range extent `E` returns normally and never
touches the small list.  When all 512 counts are 1 it links `E` as head of the huge list
and leaves the 512 counts at 0; when some sub-frame would still have a count of at
least 1 after its decrement, the huge list is unchanged; and `E` is linked only when all
512 counts were 1 before the call and are 0 after it. -/
theorem kfree_huge_no_partial_reclaim (L : MemLayout) (s : Kmem) (E : Nat)
    (halign : E % PGSIZE_2M = 0) (hlo : L.kend ≤ E) (hhi : E < L.PHYSTOP)
    (hty : ∀ j, s.ref_counts j < UINT) :
    ∃ s1, kfree_huge L s E = KResult.done s1 ∧ s1.freelist = s.freelist ∧
      ((∀ i, i < 512 → s.ref_counts (pfnAt L E i) = 1) →
        s1.huge_freelist = E :: s.huge_freelist ∧
        ∀ i, i < 512 → s1.ref_counts (pfnAt L E i) = 0) ∧
      ((∃ i, i < 512 ∧ dec32 (s.ref_counts (pfnAt L E i)) ≥ 1) →
        s1.huge_freelist = s.huge_freelist) ∧
      (s1.huge_freelist = E :: s.huge_freelist →
        ∀ i, i < 512 → s.ref_counts (pfnAt L E i) = 1 ∧ s1.ref_counts (pfnAt L E i) = 0) := by
  have hg : ¬ (E % PGSIZE_2M ≠ 0 ∨ E < L.kend ∨ E ≥ L.PHYSTOP) := by omega
  by_cases hall : ∀ i, i < 512 → s.ref_counts (pfnAt L E i) = 1
  · have hall2 : ∀ k, 0 ≤ k → k < 0 + 512 → s.ref_counts (pfn L E + k) = 1 := by
      intro k _ hk
      have := hall k (by omega)
      rwa [pfnAt_eq L E k (by omega)] at this
    have hsw := kfree_huge_sweep_ones L E 512 0 s.ref_counts (by omega) hall2
    have hzero : ∀ i, i < 512 →
        (fun j => if pfn L E + 0 ≤ j ∧ j < pfn L E + 0 + 512 then 0 else s.ref_counts j)
          (pfnAt L E i) = 0 := by
      intro i hi
      have h2 : pfn L E + 0 ≤ pfnAt L E i ∧ pfnAt L E i < pfn L E + 0 + 512 := by
        rw [pfnAt_eq L E i (by omega)]
        omega
      simp only [if_pos h2]
    refine ⟨{ freelist := s.freelist, huge_freelist := E :: s.huge_freelist,
              ref_counts := fun j =>
                if pfn L E + 0 ≤ j ∧ j < pfn L E + 0 + 512 then 0 else s.ref_counts j },
      ?_, ?_, ?_, ?_, ?_⟩
    · simp only [kfree_huge, if_neg hg, hsw]
    · rfl
    · intro _
      exact ⟨rfl, hzero⟩
    · intro h
      obtain ⟨i, hi, hd⟩ := h
      rw [hall i hi, dec32_one] at hd
      omega
    · intro _ i hi
      exact ⟨hall i hi, hzero i hi⟩
  · have hex : ∃ k, 0 ≤ k ∧ k < 0 + 512 ∧ dec32 (s.ref_counts (pfn L E + k)) > 0 := by
      by_contra hno
      apply hall
      intro i hi
      have hd : ¬ dec32 (s.ref_counts (pfn L E + i)) > 0 := by
        intro h
        exact hno ⟨i, by omega, by omega, h⟩
      have hlt := hty (pfn L E + i)
      rw [pfnAt_eq L E i (by omega)]
      unfold dec32 UINT at hd
      unfold UINT at hlt
      omega
    have hsw := kfree_huge_sweep_stops L E 512 0 s.ref_counts (by omega) hex
    have hres : kfree_huge L s E =
        KResult.done { s with ref_counts := (kfree_huge_sweep L E 512 0 s.ref_counts).2 } := by
      simp only [kfree_huge, if_neg hg]
      generalize kfree_huge_sweep L E 512 0 s.ref_counts = r at hsw
      obtain ⟨b, rc⟩ := r
      simp only at hsw
      subst hsw
      rfl
    refine ⟨_, hres, rfl, ?_, ?_, ?_⟩
    · intro h
      exact absurd h hall
    · intro _
      rfl
    · intro h
      exact absurd h (by simp)

/-- Instance: `kfree_huge` on an extent whose 512 counts are all 1. -/
theorem kfree_huge_no_partial_reclaim_witness :
    ∃ s1, kfree_huge tinyLayout (constKmem 1) 0x87E00000 = KResult.done s1 ∧
      s1.freelist = (constKmem 1).freelist ∧
      ((∀ i, i < 512 → (constKmem 1).ref_counts (pfnAt tinyLayout 0x87E00000 i) = 1) →
        s1.huge_freelist = 0x87E00000 :: (constKmem 1).huge_freelist ∧
        ∀ i, i < 512 → s1.ref_counts (pfnAt tinyLayout 0x87E00000 i) = 0) ∧
      ((∃ i, i < 512 ∧
          dec32 ((constKmem 1).ref_counts (pfnAt tinyLayout 0x87E00000 i)) ≥ 1) →
        s1.huge_freelist = (constKmem 1).huge_freelist) ∧
      (s1.huge_freelist = 0x87E00000 :: (constKmem 1).huge_freelist →
        ∀ i, i < 512 → (constKmem 1).ref_counts (pfnAt tinyLayout 0x87E00000 i) = 1 ∧
          s1.ref_counts (pfnAt tinyLayout 0x87E00000 i) = 0) :=
  kfree_huge_no_partial_reclaim tinyLayout (constKmem 1) 0x87E00000 (by decide) (by decide)
    (by decide) (fun _ => (by decide : 1 < UINT))

/-- C8, the code at a failing input.  On the extent at `0x87E00000` whose first
sub-frame has count 2 and whose other sub-frames have count 1, `kfree_huge` returns
normally after the first decrement: the first count is 1, and the second sub-frame,
never visited, still has count 1 instead of 0. -/
theorem kfree_huge_early_return_skips_rest :
    (kfree_huge tinyLayout sharedFirst 0x87E00000).halted = false ∧
    sharedFirst.ref_counts (pfnAt tinyLayout 0x87E00000 0) = 2 ∧
    (kfree_huge tinyLayout sharedFirst 0x87E00000).state.ref_counts
      (pfnAt tinyLayout 0x87E00000 0) = 1 ∧
    sharedFirst.ref_counts (pfnAt tinyLayout 0x87E00000 1) = 1 ∧
    (kfree_huge tinyLayout sharedFirst 0x87E00000).state.ref_counts
      (pfnAt tinyLayout 0x87E00000 1) = 1 ∧
    (kfree_huge tinyLayout sharedFirst 0x87E00000).state.huge_freelist = [] := by
  decide

/-- C10, the code at a failing input.  After boot on `tinyLayout` the huge list holds
the extent at `0x87E00000`; `kalloc_huge` returns it and empties the list, and each of
its 512 sub-frames has reference count 0 on return, not 1. -/
theorem kalloc_huge_after_kinit_counts_zero :
    (kinit tinyLayout).halted = false ∧
    (kinit tinyLayout).state.huge_freelist = [0x87E00000] ∧
    (kalloc_huge (kinit tinyLayout).state).1 = 0x87E00000 ∧
    (kalloc_huge (kinit tinyLayout).state).2.huge_freelist = [] ∧
    ∀ i, i < 512 →
      (kalloc_huge (kinit tinyLayout).state).2.ref_counts (pfnAt tinyLayout 0x87E00000 i)
        = 0 := by
  rw [kinit_tinyLayout]
  refine ⟨rfl, rfl, rfl, rfl, ?_⟩
  intro i _
  simp [kalloc_huge, KResult.state]

/-! ## Theorems: mutual exclusion under interleaving -/

/-- C7. Processes with distinct pids run acquire/release pairs on a bound, initially free
lock, interleaved step by step in any order.  In every reachable configuration at most
one process holds the lock (its acquire has returned 0 and its release has not yet
flipped the state back); and while a process owns the lock (from its successful
compare-and-swap until the state flip of its release) the state is 1, every other
process is outside or spinning in acquire, the compare-and-swap of acquire fails, and a
step of such a process leaves it outside or spinning: its acquire does not return. -/
theorem grouplock_mutual_exclusion (i : Nat) (t0 : LockTable)
    (hb : (t0 i).group_id ≠ -1) (h0 : (t0 i).state = 0)
    (c : Conf) (hr : Reachable i t0 c) :
    (∀ p q, holds (c.pc p) = true → holds (c.pc q) = true → p = q) ∧
    (∀ p q, p ≠ q → owns (c.pc p) = true →
      (c.locks i).state = 1 ∧
      (c.pc q = .out ∨ c.pc q = .acq_cas) ∧
      cas_state c.locks i 0 1 = (false, c.locks) ∧
      ∀ ticks, (stepProc i c q ticks).pc q = .out ∨
        (stepProc i c q ticks).pc q = .acq_cas) := by
  obtain ⟨hbound, hcase⟩ := lockInv_reachable i t0 hb h0 c hr
  rcases hcase with ⟨_, hno⟩ | ⟨hs, o, _, hothers, _, _⟩
  · constructor
    · intro p q hp _
      have := owns_of_holds _ hp
      rw [hno p] at this
      exact absurd this (by decide)
    · intro p q _ hp
      rw [hno p] at hp
      exact absurd hp (by decide)
  · have howner : ∀ r, owns (c.pc r) = true → r = o := by
      intro r hr1
      by_contra hne
      rw [hothers r hne] at hr1
      exact absurd hr1 (by decide)
    constructor
    · intro p q hp hq
      rw [howner p (owns_of_holds _ hp), howner q (owns_of_holds _ hq)]
    · intro p q hpq hp
      have hpo := howner p hp
      have hq : owns (c.pc q) = false := hothers q (fun h => hpq (hpo.trans h.symm))
      have hcas : cas_state c.locks i 0 1 = (false, c.locks) := by
        simp [cas_state, cas, hs]
      refine ⟨hs, out_or_spin_of_not_owns _ hq, hcas, ?_⟩
      intro ticks
      rcases out_or_spin_of_not_owns _ hq with hpc | hpc
      · right
        simp only [stepProc, hpc, if_neg hbound]
        exact setPc_same _ _ _
      · right
        simp only [stepProc, hpc, hcas]

/-- Instance: the configuration in which process 7 holds lock 1. -/
theorem grouplock_mutual_exclusion_witness :
    holds (heldBy7.pc 7) = true ∧
    (∀ p q, holds (heldBy7.pc p) = true → holds (heldBy7.pc q) = true → p = q) ∧
    (∀ p q, p ≠ q → owns (heldBy7.pc p) = true →
      (heldBy7.locks 1).state = 1 ∧
      (heldBy7.pc q = .out ∨ heldBy7.pc q = .acq_cas) ∧
      cas_state heldBy7.locks 1 0 1 = (false, heldBy7.locks) ∧
      ∀ ticks, (stepProc 1 heldBy7 q ticks).pc q = .out ∨
        (stepProc 1 heldBy7 q ticks).pc q = .acq_cas) :=
  ⟨by decide,
   grouplock_mutual_exclusion 1 (oneLock (mkLock 0 1 (-1))) (by decide) rfl heldBy7
    (Reachable.step _ 7 5 (Reachable.step _ 7 0 (Reachable.step _ 7 0
      (Reachable.step _ 7 0 Reachable.init))))⟩

/-! ## Theorems: validation, round trip and underflow of `kfree` -/

/-- C11. `kfree` panics exactly when the address is not a multiple of 4096, or lies below
`end`, or is at least `PHYSTOP`; `kfree_huge` panics exactly when the address is not a
multiple of 2097152, or lies below `end`, or is at least `PHYSTOP`.  A panic of either
happens with the allocator state as it was at the call. -/
theorem kfree_panic_iff (L : MemLayout) (s : Kmem) (pa : Nat) :
    ((kfree L s pa).halted = true ↔ (pa % 4096 ≠ 0 ∨ pa < L.kend ∨ pa ≥ L.PHYSTOP)) ∧
    ((kfree_huge L s pa).halted = true ↔
      (pa % 2097152 ≠ 0 ∨ pa < L.kend ∨ pa ≥ L.PHYSTOP)) ∧
    ((kfree L s pa).halted = true → kfree L s pa = KResult.panic s) ∧
    ((kfree_huge L s pa).halted = true → kfree_huge L s pa = KResult.panic s) := by
  have hsmall : ∀ h : ¬ (pa % PGSIZE ≠ 0 ∨ pa < L.kend ∨ pa ≥ L.PHYSTOP),
      (kfree L s pa).halted = false := by
    intro h
    simp only [kfree, if_neg h]
    split <;> rfl
  have hhuge : ∀ h : ¬ (pa % PGSIZE_2M ≠ 0 ∨ pa < L.kend ∨ pa ≥ L.PHYSTOP),
      (kfree_huge L s pa).halted = false := by
    intro h
    simp only [kfree_huge, if_neg h]
    generalize kfree_huge_sweep L pa 512 0 s.ref_counts = r
    obtain ⟨b, rc⟩ := r
    cases b <;> rfl
  refine ⟨?_, ?_, ?_, ?_⟩
  · by_cases h : pa % PGSIZE ≠ 0 ∨ pa < L.kend ∨ pa ≥ L.PHYSTOP
    · have hres : kfree L s pa = KResult.panic s := by simp only [kfree, if_pos h]
      rw [hres]
      exact ⟨fun _ => h, fun _ => rfl⟩
    · rw [hsmall h]
      exact ⟨fun hf => absurd hf (by decide), fun hc => absurd hc h⟩
  · by_cases h : pa % PGSIZE_2M ≠ 0 ∨ pa < L.kend ∨ pa ≥ L.PHYSTOP
    · have hres : kfree_huge L s pa = KResult.panic s := by simp only [kfree_huge, if_pos h]
      rw [hres]
      exact ⟨fun _ => h, fun _ => rfl⟩
    · rw [hhuge h]
      exact ⟨fun hf => absurd hf (by decide), fun hc => absurd hc h⟩
  · intro hh
    by_cases h : pa % PGSIZE ≠ 0 ∨ pa < L.kend ∨ pa ≥ L.PHYSTOP
    · simp only [kfree, if_pos h]
    · rw [hsmall h] at hh
      exact absurd hh (by decide)
  · intro hh
    by_cases h : pa % PGSIZE_2M ≠ 0 ∨ pa < L.kend ∨ pa ≥ L.PHYSTOP
    · simp only [kfree_huge, if_pos h]
    · rw [hhuge h] at hh
      exact absurd hh (by decide)

/-- Instance: `kfree` of an address one byte past a page boundary and `kfree_huge` of a
page that is not 2MB-aligned. -/
theorem kfree_panic_iff_witness :
    kfree tinyLayout (constKmem 1) 0x87E00001 = KResult.panic (constKmem 1) ∧
    kfree_huge tinyLayout (constKmem 1) 0x87E01000 = KResult.panic (constKmem 1) :=
  ⟨(kfree_panic_iff tinyLayout (constKmem 1) 0x87E00001).2.2.1
      ((kfree_panic_iff tinyLayout (constKmem 1) 0x87E00001).1.mpr (Or.inl (by decide))),
   (kfree_panic_iff tinyLayout (constKmem 1) 0x87E01000).2.2.2
      ((kfree_panic_iff tinyLayout (constKmem 1) 0x87E01000).2.1.mpr (Or.inl (by decide)))⟩

/-- C13. On a state whose small list has the head `f`, an aligned frame inside the
managed range, `kalloc` followed by `kfree` of the returned frame returns normally and
leaves the small list as it was before the two calls (same frames, same order, same
length), the huge list unchanged and the count of `f` at 0. -/
theorem kalloc_kfree_round_trip (L : MemLayout) (s : Kmem) (f : Nat) (tl : List Nat)
    (hfl : s.freelist = f :: tl)
    (halign : f % PGSIZE = 0) (hlo : L.kend ≤ f) (hhi : f < L.PHYSTOP) :
    (kalloc L s).1 = f ∧
    ∃ s2, kfree L (kalloc L s).2 (kalloc L s).1 = KResult.done s2 ∧
      s2.freelist = s.freelist ∧ s2.freelist.length = s.freelist.length ∧
      s2.huge_freelist = s.huge_freelist ∧ s2.ref_counts (pfn L f) = 0 := by
  have hg : ¬ (f % PGSIZE ≠ 0 ∨ f < L.kend ∨ f ≥ L.PHYSTOP) := by omega
  have hk : kalloc L s =
      (f, { freelist := tl, huge_freelist := s.huge_freelist,
            ref_counts := setRef s.ref_counts (pfn L f) 1 }) := by
    simp only [kalloc, hfl]
  rw [hk]
  refine ⟨rfl, { freelist := f :: tl, huge_freelist := s.huge_freelist,
                 ref_counts := setRef (setRef s.ref_counts (pfn L f) 1) (pfn L f) 0 },
    ?_, ?_, ?_, rfl, ?_⟩
  · simp only [kfree, if_neg hg, setRef_same, dec32_one]
    rfl
  · exact hfl.symm
  · rw [hfl]
  · exact setRef_same _ _ _

/-- Instance: the round trip on the state with two free frames. -/
theorem kalloc_kfree_round_trip_witness :
    (kalloc stockLayout twoFree).1 = 0x87DFF000 ∧
    ∃ s2, kfree stockLayout (kalloc stockLayout twoFree).2 (kalloc stockLayout twoFree).1 =
        KResult.done s2 ∧
      s2.freelist = twoFree.freelist ∧ s2.freelist.length = twoFree.freelist.length ∧
      s2.huge_freelist = twoFree.huge_freelist ∧
      s2.ref_counts (pfn stockLayout 0x87DFF000) = 0 :=
  kalloc_kfree_round_trip stockLayout twoFree 0x87DFF000 [0x87DFE000] rfl (by decide)
    (by decide) (by decide)

/-- C14, refuted as stated.  `kfree` of the aligned, in-range frame `0x87FFF000` whose
count is 0 does not panic: it returns normally and the counter holds `2^32 - 1`. -/
theorem kfree_count_zero_wraps :
    (constKmem 0).ref_counts (pfn tinyLayout 0x87FFF000) = 0 ∧
    (kfree tinyLayout (constKmem 0) 0x87FFF000).halted = false ∧
    (kfree tinyLayout (constKmem 0) 0x87FFF000).state.ref_counts
      (pfn tinyLayout 0x87FFF000) = 4294967295 := by
  decide

/-- C14, amended.  The counter is a `uint`: after `kfree` of an aligned, in-range frame
with count `c` the stored count is again below `2^32`.  The call never panics on the
count: for `c ≥ 1` it stores `c - 1`, and for `c = 0` it returns normally with both free
lists unchanged and the counter wrapped to `2^32 - 1`. -/
theorem kfree_count_no_validation (L : MemLayout) (s : Kmem) (f c : Nat)
    (halign : f % PGSIZE = 0) (hlo : L.kend ≤ f) (hhi : f < L.PHYSTOP)
    (hc : s.ref_counts (pfn L f) = c) (hc32 : c < UINT) :
    ∃ s1, kfree L s f = KResult.done s1 ∧
      s1.ref_counts (pfn L f) < UINT ∧
      (1 ≤ c → s1.ref_counts (pfn L f) = c - 1) ∧
      (c = 0 → s1.ref_counts (pfn L f) = UINT - 1 ∧ s1.freelist = s.freelist ∧
        s1.huge_freelist = s.huge_freelist) := by
  have hg : ¬ (f % PGSIZE ≠ 0 ∨ f < L.kend ∨ f ≥ L.PHYSTOP) := by omega
  have hlt : dec32 c < UINT := by
    unfold dec32 UINT
    omega
  by_cases hz : dec32 c > 0
  · refine ⟨{ s with ref_counts := setRef s.ref_counts (pfn L f) (dec32 c) }, ?_, ?_, ?_, ?_⟩
    · simp only [kfree, if_neg hg, hc, if_pos hz]
    · simp only [setRef_same]
      exact hlt
    · intro h1
      simp only [setRef_same]
      unfold dec32 UINT at *
      omega
    · intro h0
      refine ⟨?_, rfl, rfl⟩
      simp only [setRef_same]
      rw [h0]
      decide
  · refine ⟨{ freelist := f :: s.freelist, huge_freelist := s.huge_freelist,
              ref_counts := setRef s.ref_counts (pfn L f) (dec32 c) }, ?_, ?_, ?_, ?_⟩
    · simp only [kfree, if_neg hg, hc, if_neg hz]
    · simp only [setRef_same]
      exact hlt
    · intro h1
      simp only [setRef_same]
      unfold dec32 UINT at *
      omega
    · intro h0
      exfalso
      apply hz
      rw [h0]
      decide

/-- Instance: `kfree` of the last frame below `PHYSTOP` with count 0. -/
theorem kfree_count_no_validation_witness :
    ∃ s1, kfree tinyLayout (constKmem 0) 0x87FFF000 = KResult.done s1 ∧
      s1.ref_counts (pfn tinyLayout 0x87FFF000) < UINT ∧
      (1 ≤ 0 → s1.ref_counts (pfn tinyLayout 0x87FFF000) = 0 - 1) ∧
      (0 = 0 → s1.ref_counts (pfn tinyLayout 0x87FFF000) = UINT - 1 ∧
        s1.freelist = (constKmem 0).freelist ∧
        s1.huge_freelist = (constKmem 0).huge_freelist) :=
  kfree_count_no_validation tinyLayout (constKmem 0) 0x87FFF000 0 (by decide) (by decide)
    (by decide) rfl (by decide)

/-! ## Theorems: the group algebra and its self-test -/

/-- C18. On `{0,1}`, `group_add` is addition modulo 2, `group_inverse` the identity map and
`group_is_identity` the test for 0, and they satisfy closure, associativity,
commutativity, the identity law for 0 and the inverse law. -/
theorem group_laws (a b c : Nat) (ha : a < 2) (hb : b < 2) (hc : c < 2) :
    group_add a b = (a + b) % 2 ∧
    group_inverse a = a ∧
    (group_add a b = 0 ∨ group_add a b = 1) ∧
    group_add (group_add a b) c = group_add a (group_add b c) ∧
    group_add a b = group_add b a ∧
    (group_add a 0 = a ∧ group_add 0 a = a) ∧
    group_add a (group_inverse a) = 0 ∧
    (group_is_identity a ≠ 0 ↔ a = 0) := by
  interval_cases a <;> interval_cases b <;> interval_cases c <;> decide

/-- Instance: the laws at `a = 1`, `b = 1`, `c = 0`. -/
theorem group_laws_witness :
    group_add 1 1 = (1 + 1) % 2 ∧
    group_inverse 1 = 1 ∧
    (group_add 1 1 = 0 ∨ group_add 1 1 = 1) ∧
    group_add (group_add 1 1) 0 = group_add 1 (group_add 1 0) ∧
    group_add 1 1 = group_add 1 1 ∧
    (group_add 1 0 = 1 ∧ group_add 0 1 = 1) ∧
    group_add 1 (group_inverse 1) = 0 ∧
    (group_is_identity 1 ≠ 0 ↔ 1 = 0) :=
  group_laws 1 1 0 (by decide) (by decide) (by decide)

/-- C19. The three self-tests return 0, `atomic_group_add` with argument 1 on a cell
holding `x` returns `x` and stores `group_add x 1`, taking 0 to 1 and 1 back to 0;
so `sys_grouplock_verify` returns 0 and `grouplock_init` never takes its `panic`
branch, whatever the table it starts from. -/
theorem self_verification_passes :
    verify_group_properties = 0 ∧
    verify_deadlock_freedom = 0 ∧
    verify_atomic_group_operations = 0 ∧
    (∀ x, atomic_group_add x 1 = (x, group_add x 1)) ∧
    atomic_group_add 0 1 = (0, 1) ∧ atomic_group_add 1 1 = (1, 0) ∧
    sys_grouplock_verify = 0 ∧
    ∀ t, grouplock_init t = some (grouplock_init_loop 64 0 t) := by
  refine ⟨by decide, by decide, by decide, ?_, by decide, by decide, by decide, ?_⟩
  · intro x
    simp [atomic_group_add, cas]
  · intro t
    have h : ¬ (verify_group_properties ≠ 0) := by decide
    simp only [grouplock_init, if_neg h]

/-! ## Theorems: sequences of lock calls -/

/-- C20. On a table whose slot `id` (in [0,64)) is unbound, and for any caller `pid`, the
calls create, acquire, release, acquire, release, destroy on `id` all return 0 and a
further destroy returns -2; acquire of -1 and of 999 returns -1 on any table; and right
after `grouplock_init` every slot in [0,64) is unbound. -/
theorem lifecycle_trace (t : LockTable) (pid : Int) (id : Int) (name : Nat → Nat)
    (fuel ticks1 ticks2 : Nat)
    (h0 : 0 ≤ id) (h1 : id < 64) (hun : (t id.toNat).group_id = -1) :
    (∃ t1 t2 t3 t4 t5 t6,
      grouplock_create t id name = (0, t1) ∧
      grouplock_acquire (fuel + 1) t1 pid ticks1 id = some (0, t2) ∧
      grouplock_release t2 pid id = (0, t3) ∧
      grouplock_acquire (fuel + 1) t3 pid ticks2 id = some (0, t4) ∧
      grouplock_release t4 pid id = (0, t5) ∧
      grouplock_destroy t5 id = (0, t6) ∧
      (grouplock_destroy t6 id).1 = -2) ∧
    (∀ ta n, grouplock_acquire n ta pid ticks1 (-1) = some (-1, ta) ∧
      grouplock_acquire n ta pid ticks1 999 = some (-1, ta)) ∧
    (∀ t0 ti, grouplock_init t0 = some ti → (ti id.toNat).group_id = -1) := by
  have hid : id ≠ -1 := by omega
  obtain ⟨t1, e1, g1, s1, _⟩ := create_step t id name h0 h1 hun
  obtain ⟨t2, e2, g2, s2, o2⟩ := acquire_step fuel t1 pid ticks1 id h0 h1 (by rw [g1]; exact hid) s1
  have b2 : (t2 id.toNat).group_id ≠ -1 := by rw [g2, g1]; exact hid
  obtain ⟨t3, e3, g3, s3, _⟩ := release_step t2 pid id h0 h1 b2 o2 s2
  have b3 : (t3 id.toNat).group_id ≠ -1 := by rw [g3]; exact b2
  obtain ⟨t4, e4, g4, s4, o4⟩ := acquire_step fuel t3 pid ticks2 id h0 h1 b3 s3
  have b4 : (t4 id.toNat).group_id ≠ -1 := by rw [g4]; exact b3
  obtain ⟨t5, e5, g5, s5, _⟩ := release_step t4 pid id h0 h1 b4 o4 s4
  have b5 : (t5 id.toNat).group_id ≠ -1 := by rw [g5]; exact b4
  obtain ⟨t6, e6, g6, _, _⟩ := destroy_step t5 id h0 h1 b5 s5
  refine ⟨⟨t1, t2, t3, t4, t5, t6, e1, e2, e3, e4, e5, e6, ?_⟩, ?_, ?_⟩
  · simp only [grouplock_destroy, if_neg (id_in_range id h0 h1), if_pos g6]
  · intro ta n
    constructor
    · simp [grouplock_acquire, MAX_GROUPLOCKS]
    · simp [grouplock_acquire, MAX_GROUPLOCKS]
  · intro t0 ti hi
    exact (grouplock_init_slots t0 ti hi id.toNat (by omega)).1

/-- Instance: the trace of the user test, lock 1 on the table left by `grouplock_init`,
caller 3. -/
theorem lifecycle_trace_witness :
    (∃ t1 t2 t3 t4 t5 t6,
      grouplock_create (grouplock_init_loop 64 0 emptyTable) 1 nameAb = (0, t1) ∧
      grouplock_acquire (0 + 1) t1 3 10 1 = some (0, t2) ∧
      grouplock_release t2 3 1 = (0, t3) ∧
      grouplock_acquire (0 + 1) t3 3 11 1 = some (0, t4) ∧
      grouplock_release t4 3 1 = (0, t5) ∧
      grouplock_destroy t5 1 = (0, t6) ∧
      (grouplock_destroy t6 1).1 = -2) ∧
    (∀ ta n, grouplock_acquire n ta 3 10 (-1) = some (-1, ta) ∧
      grouplock_acquire n ta 3 10 999 = some (-1, ta)) ∧
    (∀ t0 ti, grouplock_init t0 = some ti → (ti (1 : Int).toNat).group_id = -1) :=
  lifecycle_trace (grouplock_init_loop 64 0 emptyTable) 3 1 nameAb 0 10 11 (by decide)
    (by decide) (by decide)

/-- C16. In every lock table reached from `grouplock_init` by create, acquire, release
and destroy calls of callers with a pid other than -1, each slot has state 1 exactly when
a holder is recorded.  Hence a release that passes its holder test finds the state at 1:
the old state returned by `atomic_group_add` is 1 (the warning branch is not taken), the
call returns 0 and leaves the lock in state 0. -/
theorem grouplock_state_holder_invariant (t : LockTable) (hr : TableReach t) :
    (∀ j, j < 64 → ((t j).state = 1 ↔ (t j).holder_pid ≠ -1)) ∧
    (∀ pid id, pid ≠ -1 → 0 ≤ id → id < 64 → (t id.toNat).group_id ≠ -1 →
      (t id.toNat).holder_pid = pid →
      (t id.toNat).state = 1 ∧
      (atomic_group_add (t id.toNat).state 1).1 = 1 ∧
      (grouplock_release t pid id).1 = 0 ∧
      ((grouplock_release t pid id).2 id.toNat).state = 0) := by
  have hok := tableOk_of_reach t hr
  constructor
  · intro j hj
    rcases hok j hj with ⟨hs, hh⟩ | ⟨hs, hh⟩
    · rw [hs, hh]
      exact ⟨fun h => absurd h (by decide), fun h => absurd rfl h⟩
    · exact ⟨fun _ => hh, fun _ => hs⟩
  · intro pid id hpid h0 h1 hb hh
    have hi : id.toNat < 64 := by omega
    have hs : (t id.toNat).state = 1 := by
      rcases hok id.toNat hi with ⟨_, hno⟩ | ⟨hs, _⟩
      · rw [hh] at hno; exact absurd hno hpid
      · exact hs
    refine ⟨hs, ?_, ?_, ?_⟩
    · rw [hs]; rfl
    · rw [grouplock_release_holder t pid id h0 h1 hb hh]
    · rw [grouplock_release_holder t pid id h0 h1 hb hh]
      show (setSlot t id.toNat _ id.toNat).state = 0
      rw [setSlot_same]
      show group_add (t id.toNat).state 1 = 0
      rw [hs]; decide

/-- Instance: the table in which process 7 holds lock 1, reached by init, create and
acquire. -/
theorem grouplock_state_holder_invariant_witness :
    (lockedBy7 1).state = 1 ∧ (lockedBy7 1).holder_pid = 7 ∧
    (∀ j, j < 64 → ((lockedBy7 j).state = 1 ↔ (lockedBy7 j).holder_pid ≠ -1)) ∧
    (∀ pid id, pid ≠ -1 → 0 ≤ id → id < 64 → (lockedBy7 id.toNat).group_id ≠ -1 →
      (lockedBy7 id.toNat).holder_pid = pid →
      (lockedBy7 id.toNat).state = 1 ∧
      (atomic_group_add (lockedBy7 id.toNat).state 1).1 = 1 ∧
      (grouplock_release lockedBy7 pid id).1 = 0 ∧
      ((grouplock_release lockedBy7 pid id).2 id.toNat).state = 0) :=
  ⟨by simp [lockedBy7, setSlot_same], by simp [lockedBy7, setSlot_same],
   grouplock_state_holder_invariant lockedBy7
    (TableReach.acquire
      (grouplock_create (grouplock_init_loop 64 0 emptyTable) 1 nameAb).2 7 5 1 1
      (0, lockedBy7) (by decide)
      (TableReach.create _ 1 nameAb
        (TableReach.init emptyTable _ (self_init emptyTable)))
      (grouplock_acquire_free 0 _ 7 5 1 (by decide) (by decide)
        (by
          rw [grouplock_create_fresh _ 1 nameAb (by decide) (by decide)
            (grouplock_init_slots emptyTable _ (self_init emptyTable) 1 (by decide)).1]
          simp [setSlot_same])
        (by
          rw [grouplock_create_fresh _ 1 nameAb (by decide) (by decide)
            (grouplock_init_slots emptyTable _ (self_init emptyTable) 1 (by decide)).1]
          simp [setSlot_same])))⟩

/-! ## Theorems: copy-on-write sharing -/

/-- C12, refuted as stated.  After `kalloc` has returned the frame `0x87DFF000` and
`2^31 - 1` calls of `inc_ref` on it (so `k + 1 = 2^31 < 2^32`), `get_ref` returns the
`int` value `-2147483648`, not `k + 1`. -/
theorem get_ref_negative_at_two_pow_31 :
    (kalloc stockLayout twoFree).1 = 0x87DFF000 ∧
    2147483647 + 1 < UINT ∧
    get_ref stockLayout
      (inc_ref_n stockLayout (kalloc stockLayout twoFree).2 0x87DFF000 2147483647)
      0x87DFF000 = -2147483648 ∧
    get_ref stockLayout
      (inc_ref_n stockLayout (kalloc stockLayout twoFree).2 0x87DFF000 2147483647)
      0x87DFF000 ≠ ((2147483647 + 1 : Nat) : Int) := by
  have hc : (kalloc stockLayout twoFree).2.ref_counts (pfn stockLayout 0x87DFF000) = 1 := by
    decide
  have hg := get_ref_inc_ref_n stockLayout (kalloc stockLayout twoFree).2 0x87DFF000
    2147483647 hc (by decide)
  refine ⟨by decide, by decide, ?_, ?_⟩
  · rewrite [hg]
    decide
  · rewrite [hg]
    decide

/-- C12, amended.  Let `kalloc` return the aligned, in-range frame `f`, leaving the state
`s1`, and let `k + 1 < 2^32`.  After `k` calls of `inc_ref(f)` the count of `f` is `k + 1`,
which `get_ref(f)` returns when `k + 1 < 2^31` (it returns an `int`); no other count and
neither list has changed.  The next `m ≤ k` calls of `kfree(f)` return normally, leave
the count at `k + 1 - m` and both lists unchanged; the call number `k + 1` brings the
count to 0 and pushes `f` onto the small list. -/
theorem cow_sharing (L : MemLayout) (s s1 : Kmem) (f k : Nat)
    (hal : kalloc L s = (f, s1)) (hne : s.freelist ≠ [])
    (halign : f % PGSIZE = 0) (hlo : L.kend ≤ f) (hhi : f < L.PHYSTOP)
    (hk : k + 1 < UINT) :
    (k + 1 < 2147483648 → get_ref L (inc_ref_n L s1 f k) f = ((k + 1 : Nat) : Int)) ∧
    (inc_ref_n L s1 f k).ref_counts (pfn L f) = k + 1 ∧
    (inc_ref_n L s1 f k).freelist = s1.freelist ∧
    (inc_ref_n L s1 f k).huge_freelist = s1.huge_freelist ∧
    (∀ j, j ≠ pfn L f → (inc_ref_n L s1 f k).ref_counts j = s1.ref_counts j) ∧
    (∀ m, m ≤ k → ∃ sm, kfree_n L (inc_ref_n L s1 f k) f m = KResult.done sm ∧
      sm.ref_counts (pfn L f) = k + 1 - m ∧ sm.freelist = s1.freelist ∧
      sm.huge_freelist = s1.huge_freelist) ∧
    (∃ s2, kfree_n L (inc_ref_n L s1 f k) f (k + 1) = KResult.done s2 ∧
      s2.ref_counts (pfn L f) = 0 ∧ s2.freelist = f :: s1.freelist ∧
      s2.huge_freelist = s1.huge_freelist) := by
  have hc1 : s1.ref_counts (pfn L f) = 1 := by
    cases hfl : s.freelist with
    | nil => exact absurd hfl hne
    | cons r next =>
      simp only [kalloc, hfl, Prod.mk.injEq] at hal
      obtain ⟨hr, hs1⟩ := hal
      rw [← hs1, hr]
      exact setRef_same _ _ _
  obtain ⟨i1, i2, i3, i4⟩ := inc_ref_n_spec L s1 f 1 hc1 k (by omega)
  have i1b : (inc_ref_n L s1 f k).ref_counts (pfn L f) = k + 1 := by omega
  have hshared : ∀ m, m ≤ k → ∃ sm, kfree_n L (inc_ref_n L s1 f k) f m = KResult.done sm ∧
      sm.ref_counts (pfn L f) = k + 1 - m ∧ sm.freelist = s1.freelist ∧
      sm.huge_freelist = s1.huge_freelist := by
    intro m hm
    obtain ⟨sm, e, h1, h2, h3, _⟩ :=
      kfree_n_shared L f (k + 1) halign hlo hhi hk m (inc_ref_n L s1 f k) i1b (by omega)
    exact ⟨sm, e, h1, h2.trans i2, h3.trans i3⟩
  refine ⟨?_, i1b, i2, i3, i4, hshared, ?_⟩
  · intro hlt
    rw [get_ref_inc_ref_n L s1 f k hc1 hk, if_pos hlt]
  · obtain ⟨sk, e, h1, h2, h3⟩ := hshared k (le_refl k)
    have h1b : sk.ref_counts (pfn L f) = 1 := by omega
    refine ⟨{ freelist := f :: sk.freelist, huge_freelist := sk.huge_freelist,
              ref_counts := setRef sk.ref_counts (pfn L f) 0 }, ?_, ?_, ?_, ?_⟩
    · simp only [kfree_n, e]
      exact kfree_last L sk f halign hlo hhi h1b
    · exact setRef_same _ _ _
    · show f :: sk.freelist = f :: s1.freelist
      rw [h2]
    · exact h3

/-- Instance: the frame `0x87DFF000` shared by three owners (`k = 2`). -/
theorem cow_sharing_witness :
    (2 + 1 < 2147483648 →
      get_ref stockLayout
        (inc_ref_n stockLayout (kalloc stockLayout twoFree).2 0x87DFF000 2) 0x87DFF000
        = ((2 + 1 : Nat) : Int)) ∧
    (inc_ref_n stockLayout (kalloc stockLayout twoFree).2 0x87DFF000 2).ref_counts
      (pfn stockLayout 0x87DFF000) = 2 + 1 ∧
    (inc_ref_n stockLayout (kalloc stockLayout twoFree).2 0x87DFF000 2).freelist =
      (kalloc stockLayout twoFree).2.freelist ∧
    (inc_ref_n stockLayout (kalloc stockLayout twoFree).2 0x87DFF000 2).huge_freelist =
      (kalloc stockLayout twoFree).2.huge_freelist ∧
    (∀ j, j ≠ pfn stockLayout 0x87DFF000 →
      (inc_ref_n stockLayout (kalloc stockLayout twoFree).2 0x87DFF000 2).ref_counts j =
        (kalloc stockLayout twoFree).2.ref_counts j) ∧
    (∀ m, m ≤ 2 → ∃ sm,
      kfree_n stockLayout
        (inc_ref_n stockLayout (kalloc stockLayout twoFree).2 0x87DFF000 2) 0x87DFF000 m
        = KResult.done sm ∧
      sm.ref_counts (pfn stockLayout 0x87DFF000) = 2 + 1 - m ∧
      sm.freelist = (kalloc stockLayout twoFree).2.freelist ∧
      sm.huge_freelist = (kalloc stockLayout twoFree).2.huge_freelist) ∧
    (∃ s2,
      kfree_n stockLayout
        (inc_ref_n stockLayout (kalloc stockLayout twoFree).2 0x87DFF000 2) 0x87DFF000
        (2 + 1) = KResult.done s2 ∧
      s2.ref_counts (pfn stockLayout 0x87DFF000) = 0 ∧
      s2.freelist = 0x87DFF000 :: (kalloc stockLayout twoFree).2.freelist ∧
      s2.huge_freelist = (kalloc stockLayout twoFree).2.huge_freelist) :=
  cow_sharing stockLayout twoFree (kalloc stockLayout twoFree).2 0x87DFF000 2 rfl
    (by decide) (by decide) (by decide) (by decide) (by decide)

/-! ## Theorems: `freerange` and the allocator invariant -/

/-- C17. Let `KERNBASE ≤ end` and `PHYSTOP + PGSIZE ≤ 2^64`, and let `[start, e)` lie inside
the managed region.  From empty free lists `freerange(start, e)` returns normally, and
then every 4KB frame `p` with `PGROUNDUP(start) ≤ p` and `p + 4096 ≤ e` is covered exactly
once by the two lists together (as an entry of the small list or inside an extent of the
huge list) and has count 0; the huge list holds exactly the 2MB-aligned extents lying
wholly inside `[start, e)`; and the small list holds frames of the range only. -/
theorem freerange_partitions (L : MemLayout) (s : Kmem) (start e : Nat)
    (hKB : L.KERNBASE ≤ L.kend) (hP : L.PHYSTOP + PGSIZE ≤ UINT64)
    (hs : L.kend ≤ start) (hse : start ≤ e) (he : e ≤ L.PHYSTOP)
    (hfl : s.freelist = []) (hhl : s.huge_freelist = []) :
    ∃ s1, freerange L s start e = KResult.done s1 ∧
      (∀ p, p % PGSIZE = 0 → PGROUNDUP start ≤ p → p + PGSIZE ≤ e →
        smallCover s1 p + hugeCover s1 p = 1 ∧ s1.ref_counts (pfn L p) = 0) ∧
      (∀ E, E ∈ s1.huge_freelist → E % PGSIZE_2M = 0 ∧ start ≤ E ∧ E + PGSIZE_2M ≤ e) ∧
      (∀ E, E % PGSIZE_2M = 0 → start ≤ E → E + PGSIZE_2M ≤ e → E ∈ s1.huge_freelist) ∧
      (∀ q, q ∈ s1.freelist → q % PGSIZE = 0 ∧ PGROUNDUP start ≤ q ∧ q + PGSIZE ≤ e) := by
  have hround : PGROUNDUP start % 4096 = 0 ∧ start ≤ PGROUNDUP start ∧
      PGROUNDUP start < start + 4096 := by
    unfold PGROUNDUP PGSIZE UINT64
    unfold PGSIZE UINT64 at hP
    omega
  obtain ⟨p0, hp0⟩ : ∃ p0, p0 = PGROUNDUP start := ⟨_, rfl⟩
  rw [← hp0] at hround
  obtain ⟨hr1, hr2, hr3⟩ := hround
  have hP2 : L.PHYSTOP ≤ UINT64 := by
    unfold PGSIZE at hP
    omega
  obtain ⟨s1, e1, a1, a2, b1, b2, c1, _⟩ :=
    freerange_loop_spec L e hKB he hP2 (e / PGSIZE + 1) p0 s hr1 (by omega)
      (by unfold PGSIZE; omega)
  rw [hfl] at a1 a2
  rw [hhl] at b1 b2
  have hmem_huge : ∀ E, E ∈ s1.huge_freelist → hugeBase p0 e E := by
    intro E hE
    by_contra hn
    have h0 := b2 E hn
    have hpos := List.count_pos_iff.mpr hE
    rw [h0] at hpos
    exact absurd hpos (by simp)
  have hmem_small : ∀ q, q ∈ s1.freelist → smallFrame p0 e q := by
    intro q hq
    by_contra hn
    have h0 := a2 q hn
    have hpos := List.count_pos_iff.mpr hq
    rw [h0] at hpos
    exact absurd hpos (by simp)
  refine ⟨s1, ?_, ?_, ?_, ?_, ?_⟩
  · unfold freerange
    rw [← hp0]
    exact e1
  · intro p hp1 hp2 hp3
    rw [← hp0] at hp2
    have hp1b : p % 4096 = 0 := hp1
    have hp3b : p + 4096 ≤ e := hp3
    refine ⟨?_, c1 p hp1 hp2 hp3⟩
    have hcov : hugeCover s1 p = s1.huge_freelist.count (p / 2097152 * 2097152) :=
      countP_contains p s1.huge_freelist (fun E hE => (hmem_huge E hE).1)
    rw [hcov]
    show s1.freelist.count p + _ = 1
    by_cases hb : hugeBase p0 e (p / 2097152 * 2097152)
    · have hns : ¬ smallFrame p0 e p := by
        unfold smallFrame
        unfold hugeBase at hb
        omega
      rw [a2 p hns, b1 _ hb]
      rfl
    · have hys : smallFrame p0 e p := by
        unfold smallFrame
        unfold hugeBase at hb
        omega
      rw [a1 p hys, b2 _ hb]
      rfl
  · intro E hE
    have := hmem_huge E hE
    unfold hugeBase at this
    unfold PGSIZE_2M
    omega
  · intro E h1 h2 h3
    have hb : hugeBase p0 e E := by
      unfold hugeBase
      unfold PGSIZE_2M at h1 h3
      omega
    have hc := b1 E hb
    apply List.count_pos_iff.mp
    rw [hc]
    simp
  · intro q hq
    have := hmem_small q hq
    unfold smallFrame at this
    rw [← hp0]
    unfold PGSIZE
    omega

/-- Instance: `freerange(end, PHYSTOP)` on the stock layout, as `kinit` calls it. -/
theorem freerange_partitions_witness :
    ∃ s1, freerange stockLayout kmem0 0x80022000 0x88000000 = KResult.done s1 ∧
      (∀ p, p % PGSIZE = 0 → PGROUNDUP 0x80022000 ≤ p → p + PGSIZE ≤ 0x88000000 →
        smallCover s1 p + hugeCover s1 p = 1 ∧ s1.ref_counts (pfn stockLayout p) = 0) ∧
      (∀ E, E ∈ s1.huge_freelist →
        E % PGSIZE_2M = 0 ∧ 0x80022000 ≤ E ∧ E + PGSIZE_2M ≤ 0x88000000) ∧
      (∀ E, E % PGSIZE_2M = 0 → 0x80022000 ≤ E → E + PGSIZE_2M ≤ 0x88000000 →
        E ∈ s1.huge_freelist) ∧
      (∀ q, q ∈ s1.freelist →
        q % PGSIZE = 0 ∧ PGROUNDUP 0x80022000 ≤ q ∧ q + PGSIZE ≤ 0x88000000) :=
  freerange_partitions stockLayout kmem0 0x80022000 0x88000000 (by decide) (by decide)
    (by decide) (by decide) (by decide) rfl rfl

/-- C15, the code at a failing input.  Boot on `tinyLayout` and then `kalloc_huge`, which
returns the extent at `0x87E00000`: its first frame is a managed frame with reference
count 0, yet it is on neither free list. -/
theorem allocated_extent_has_count_zero :
    (kinit tinyLayout).halted = false ∧
    smallCover (kinit tinyLayout).state 0x87E00000 +
      hugeCover (kinit tinyLayout).state 0x87E00000 = 1 ∧
    (kalloc_huge (kinit tinyLayout).state).1 = 0x87E00000 ∧
    (0x87E00000 % PGSIZE = 0 ∧ tinyLayout.kend ≤ 0x87E00000 ∧
      0x87E00000 < tinyLayout.PHYSTOP) ∧
    (kalloc_huge (kinit tinyLayout).state).2.ref_counts (pfn tinyLayout 0x87E00000) = 0 ∧
    smallCover (kalloc_huge (kinit tinyLayout).state).2 0x87E00000 = 0 ∧
    hugeCover (kalloc_huge (kinit tinyLayout).state).2 0x87E00000 = 0 := by
  rw [kinit_tinyLayout]
  refine ⟨rfl, by decide, rfl, by decide, ?_, rfl, rfl⟩
  simp [kalloc_huge, KResult.state]

/-! ## Theorems: destroy while busy, repeated release -/

/-- C21. On a table in which lock `id` (in [0,64)) is bound and unlocked, for any caller:
acquire returns 0; a destroy then returns -3 and leaves the table as it is; the matching
release returns 0; a destroy right after it returns 0; and a create after that destroy
returns 0 and leaves the lock bound to `id`, in state 0, without holder. -/
theorem destroy_busy_then_recreate (t : LockTable) (pid : Int) (id : Int)
    (name : Nat → Nat) (fuel ticks : Nat)
    (h0 : 0 ≤ id) (h1 : id < 64) (hb : (t id.toNat).group_id ≠ -1)
    (hs : (t id.toNat).state = 0) :
    ∃ t1 t2 t3 t4,
      grouplock_acquire (fuel + 1) t pid ticks id = some (0, t1) ∧
      grouplock_destroy t1 id = (-3, t1) ∧
      grouplock_release t1 pid id = (0, t2) ∧
      grouplock_destroy t2 id = (0, t3) ∧
      grouplock_create t3 id name = (0, t4) ∧
      (t4 id.toNat).group_id = id ∧ (t4 id.toNat).group_id ≠ -1 ∧
      (t4 id.toNat).state = 0 ∧ (t4 id.toNat).holder_pid = -1 := by
  have hid : id ≠ -1 := by omega
  obtain ⟨t1, e1, g1, s1, o1⟩ := acquire_step fuel t pid ticks id h0 h1 hb hs
  have b1 : (t1 id.toNat).group_id ≠ -1 := by rw [g1]; exact hb
  have d1 := grouplock_destroy_busy t1 id h0 h1 b1 (by rw [s1]; decide)
  obtain ⟨t2, e2, g2, s2, _⟩ := release_step t1 pid id h0 h1 b1 o1 s1
  have b2 : (t2 id.toNat).group_id ≠ -1 := by rw [g2]; exact b1
  obtain ⟨t3, e3, g3, _, _⟩ := destroy_step t2 id h0 h1 b2 s2
  obtain ⟨t4, e4, g4, s4, o4⟩ := create_step t3 id name h0 h1 g3
  exact ⟨t1, t2, t3, t4, e1, d1, e2, e3, e4, g4, by rw [g4]; exact hid, s4, o4⟩

/-- Instance: lock 1, bound and free, caller 7. -/
theorem destroy_busy_then_recreate_witness :
    ∃ t1 t2 t3 t4,
      grouplock_acquire (0 + 1) (oneLock (mkLock 0 1 (-1))) 7 5 1 = some (0, t1) ∧
      grouplock_destroy t1 1 = (-3, t1) ∧
      grouplock_release t1 7 1 = (0, t2) ∧
      grouplock_destroy t2 1 = (0, t3) ∧
      grouplock_create t3 1 nameAb = (0, t4) ∧
      (t4 (1 : Int).toNat).group_id = 1 ∧ (t4 (1 : Int).toNat).group_id ≠ -1 ∧
      (t4 (1 : Int).toNat).state = 0 ∧ (t4 (1 : Int).toNat).holder_pid = -1 :=
  destroy_busy_then_recreate (oneLock (mkLock 0 1 (-1))) 7 1 nameAb 0 5 (by decide)
    (by decide) (by decide) rfl

/-- C22. Let a caller with a pid other than -1 hold lock `id` (in [0,64)): its acquire has
returned 0, leaving the table `t1`.  Its release returns 0, and a second release by the
same caller returns -3 and leaves the table as it is: the lock stays bound, in state 0,
without holder. -/
theorem repeated_release_rejected (t t1 : LockTable) (pid : Int) (id : Int)
    (fuel ticks : Nat) (hpid : pid ≠ -1) (h0 : 0 ≤ id) (h1 : id < 64)
    (hacq : grouplock_acquire fuel t pid ticks id = some (0, t1)) :
    ∃ t2, grouplock_release t1 pid id = (0, t2) ∧
      grouplock_release t2 pid id = (-3, t2) ∧
      (t2 id.toNat).group_id ≠ -1 ∧ (t2 id.toNat).state = 0 ∧
      (t2 id.toNat).holder_pid = -1 := by
  obtain ⟨hb, _, g1, s1, o1⟩ := grouplock_acquire_returned_zero fuel t t1 pid ticks id h0 h1 hacq
  have b1 : (t1 id.toNat).group_id ≠ -1 := by rw [g1]; exact hb
  obtain ⟨t2, e2, g2, s2, o2⟩ := release_step t1 pid id h0 h1 b1 o1 s1
  have b2 : (t2 id.toNat).group_id ≠ -1 := by rw [g2]; exact b1
  have hne : (t2 id.toNat).holder_pid ≠ pid := by
    rw [o2]
    exact fun h => hpid h.symm
  exact ⟨t2, e2, grouplock_release_not_holder t2 pid id h0 h1 b2 hne, b2, s2, o2⟩

/-- Instance: lock 1 acquired by caller 7 at tick 5. -/
theorem repeated_release_rejected_witness :
    ∃ t2,
      grouplock_release
        (setSlot (oneLock (mkLock 0 1 (-1))) (1 : Int).toNat
          { oneLock (mkLock 0 1 (-1)) (1 : Int).toNat with
            state := 1, holder_pid := 7, acquire_time := 5 }) 7 1 = (0, t2) ∧
      grouplock_release t2 7 1 = (-3, t2) ∧
      (t2 (1 : Int).toNat).group_id ≠ -1 ∧ (t2 (1 : Int).toNat).state = 0 ∧
      (t2 (1 : Int).toNat).holder_pid = -1 :=
  repeated_release_rejected (oneLock (mkLock 0 1 (-1))) _ 7 1 (0 + 1) 5 (by decide)
    (by decide) (by decide)
    (grouplock_acquire_free 0 (oneLock (mkLock 0 1 (-1))) 7 5 1 (by decide) (by decide)
      (by decide) rfl)

/-! ## Theorems: `freemem_amount` -/

/-- C23. For a state with `n` entries on the small list and `m` on the huge list, the free
memory fitting the `uint64` accumulator, `freemem_amount` returns
`(n * 4096 + m * 2097152) / 1024 = 4 * n + 2048 * m`, and `sys_freemem` returns the same
value; a `kalloc` from a non-empty small list lowers the value by 4 and a `kalloc_huge`
from a non-empty huge list lowers it by 2048. -/
theorem freemem_amount_spec (s : Kmem)
    (hfit : s.freelist.length * 4096 + s.huge_freelist.length * 2097152 < UINT64) :
    freemem_amount s =
      (s.freelist.length * 4096 + s.huge_freelist.length * 2097152) / 1024 ∧
    freemem_amount s = 4 * s.freelist.length + 2048 * s.huge_freelist.length ∧
    sys_freemem s = freemem_amount s ∧
    (∀ L, s.freelist ≠ [] → freemem_amount (kalloc L s).2 + 4 = freemem_amount s) ∧
    (s.huge_freelist ≠ [] → freemem_amount (kalloc_huge s).2 + 2048 = freemem_amount s) := by
  have hval := freemem_amount_eq s hfit
  refine ⟨?_, hval, rfl, ?_, ?_⟩
  · rw [hval]
    omega
  · intro L hne
    cases hfl : s.freelist with
    | nil => exact absurd hfl hne
    | cons r next =>
      have hk : kalloc L s =
          (r, { freelist := next, huge_freelist := s.huge_freelist,
                ref_counts := setRef s.ref_counts (pfn L r) 1 }) := by
        simp only [kalloc, hfl]
      rw [hfl, List.length_cons] at hfit hval
      rw [hk, hval]
      rw [freemem_amount_eq _ (by
        show next.length * 4096 + s.huge_freelist.length * 2097152 < UINT64
        omega)]
      show 4 * next.length + 2048 * s.huge_freelist.length + 4 = _
      omega
  · intro hne
    cases hhl : s.huge_freelist with
    | nil => exact absurd hhl hne
    | cons r next =>
      have hk : kalloc_huge s = (r, { s with huge_freelist := next }) := by
        simp only [kalloc_huge, hhl]
      rw [hhl, List.length_cons] at hfit hval
      rw [hk, hval]
      rw [freemem_amount_eq _ (by
        show s.freelist.length * 4096 + next.length * 2097152 < UINT64
        omega)]
      show 4 * s.freelist.length + 2048 * next.length + 2048 = _
      omega

/-- Instance: the state with two frames on the small list and none on the huge list. -/
theorem freemem_amount_spec_witness :
    freemem_amount twoFree =
      (twoFree.freelist.length * 4096 + twoFree.huge_freelist.length * 2097152) / 1024 ∧
    freemem_amount twoFree =
      4 * twoFree.freelist.length + 2048 * twoFree.huge_freelist.length ∧
    sys_freemem twoFree = freemem_amount twoFree ∧
    (∀ L, twoFree.freelist ≠ [] →
      freemem_amount (kalloc L twoFree).2 + 4 = freemem_amount twoFree) ∧
    (twoFree.huge_freelist ≠ [] →
      freemem_amount (kalloc_huge twoFree).2 + 2048 = freemem_amount twoFree) :=
  freemem_amount_spec twoFree (by decide)

/-! ## Theorems: sharing and round trip of huge extents -/

/-- C24, the code at a failing input.  The extent at `0x87E00000` is held by two owners
(all 512 counts are 2).  The first `kfree_huge` leaves the huge list unchanged; the
second does not link the extent: it returns at the second sub-frame, leaving the counts
0, 1, 2, ... and the huge list empty; a third call wraps the first count to `2^32 - 1`. -/
theorem shared_extent_not_relinked :
    (∀ i, i < 512 → sharedTwice.ref_counts (pfnAt tinyLayout 0x87E00000 i) = 2) ∧
    (kfree_huge_n tinyLayout sharedTwice 0x87E00000 1).state.huge_freelist = [] ∧
    (kfree_huge_n tinyLayout sharedTwice 0x87E00000 2).halted = false ∧
    (kfree_huge_n tinyLayout sharedTwice 0x87E00000 2).state.huge_freelist = [] ∧
    (kfree_huge_n tinyLayout sharedTwice 0x87E00000 2).state.ref_counts
      (pfnAt tinyLayout 0x87E00000 0) = 0 ∧
    (kfree_huge_n tinyLayout sharedTwice 0x87E00000 2).state.ref_counts
      (pfnAt tinyLayout 0x87E00000 1) = 1 ∧
    (kfree_huge_n tinyLayout sharedTwice 0x87E00000 2).state.ref_counts
      (pfnAt tinyLayout 0x87E00000 2) = 2 ∧
    (kfree_huge_n tinyLayout sharedTwice 0x87E00000 3).state.huge_freelist = [] ∧
    (kfree_huge_n tinyLayout sharedTwice 0x87E00000 3).state.ref_counts
      (pfnAt tinyLayout 0x87E00000 0) = 4294967295 := by
  refine ⟨?_, by decide, by decide, by decide, by decide, by decide, by decide, by decide,
    by decide⟩
  intro i hi
  have hidx : pfnAt tinyLayout 0x87E00000 i = 32256 + i := by
    rw [pfnAt_eq tinyLayout 0x87E00000 i (by omega)]
    have : pfn tinyLayout 0x87E00000 = 32256 := by decide
    rw [this]
  rw [hidx]
  have hin : 32256 ≤ 32256 + i ∧ 32256 + i < 32768 := by omega
  simp only [sharedTwice, if_pos hin]

/-- C25, the code at a failing input.  After boot on `tinyLayout` the huge list is
`[0x87E00000]`; `kalloc_huge` returns that extent, and the `kfree_huge` of it that
follows returns without linking it: the huge list is empty and the count of the first
sub-frame has wrapped from 0 to `2^32 - 1`. -/
theorem huge_round_trip_loses_extent :
    (kinit tinyLayout).state.huge_freelist = [0x87E00000] ∧
    (kalloc_huge (kinit tinyLayout).state).1 = 0x87E00000 ∧
    (kalloc_huge (kinit tinyLayout).state).2.ref_counts (pfn tinyLayout 0x87E00000) = 0 ∧
    (kfree_huge tinyLayout (kalloc_huge (kinit tinyLayout).state).2 0x87E00000).halted
      = false ∧
    (kfree_huge tinyLayout (kalloc_huge (kinit tinyLayout).state).2
      0x87E00000).state.huge_freelist = [] ∧
    (kfree_huge tinyLayout (kalloc_huge (kinit tinyLayout).state).2
      0x87E00000).state.ref_counts (pfn tinyLayout 0x87E00000) = 4294967295 := by
  rewrite [kinit_tinyLayout]
  refine ⟨by decide, by decide, by decide, by decide, by decide, by decide⟩

end Xv6
